import Mathlib

/-!
Shallow embedding of the cinp go client library.

The embedded pieces are the URI grammar of `NewURI` / `URI.Split` /
`URI.Build` / `URI.ExtractIds`, the status classification and header
assembly of `CInP.request`, the `Object-Id` post-processing of
`CInP.Create`, the response-header parsing of `CInP.List`, and the
pagination loop of `CInP.ListIds`.

The regular expression compiled in `NewURI` is

  ^(rootPath)(([a-zA-Z0-9\-_.!~*]+/)*)([a-zA-Z0-9\-_.!~*]+)?(:([a-zA-Z0-9\-_.!~*\x27]*:)*)?(\([a-zA-Z0-9\-_.!~*]+\))?$

(where \x27 is the apostrophe character).  It is anchored on both
sides and, besides the root path, is built from character classes that
are pairwise separated by the delimiter characters `/`, `:`, `(`, `)`,
none of which belongs to any class.  Under go's leftmost-first match
semantics every quantifier in it is therefore forced: a namespace
iteration can succeed only on the maximal run of segment characters
followed by `/` (no later group can consume a `/`), the optional model
group can only take the maximal run (the groups after it can only
start with `:`, `(` or the end), and an id iteration can only take the
maximal run of id characters followed by `:`.  The functions below
implement exactly this forced match, group by group, and are the
shallow embedding of `uriRegex.FindStringSubmatch`.  The root path is
matched literally (faithful for root paths free of regex
metacharacters, such as the `/api/v1/` used throughout the tests).
-/

namespace CInPGo

/-- Character class `[a-zA-Z0-9\-_.!~*]` of the regex in `NewURI`,
used for namespace segments, the model and the action. -/
def isSegChar (c : Char) : Bool :=
  ('a' ≤ c && c ≤ 'z') || ('A' ≤ c && c ≤ 'Z') || ('0' ≤ c && c ≤ '9') ||
  c == '-' || c == '_' || c == '.' || c == '!' || c == '~' || c == '*'

/-- The apostrophe character, additionally allowed in ids by the regex. -/
def apos : Char := Char.ofNat 39

/-- Character class of the id positions of the regex: the segment
class plus the apostrophe. -/
def isIdChar (c : Char) : Bool := isSegChar c || c == apos

/-- The namespace group `(([a-zA-Z0-9\-_.!~*]+/)*)` of the regex:
repeatedly take a non-empty maximal run of segment characters followed
by `/`.  Returns the text matched by the group and the rest of the
input.  Fuelled so that the definition is structural; one unit of fuel
per iteration, and every iteration consumes at least two characters,
so fuel `s.length` is always enough. -/
def nsGroupF : Nat → List Char → List Char × List Char
  | 0, s => ([], s)
  | fuel + 1, s =>
    let run := s.takeWhile isSegChar
    let rest := s.dropWhile isSegChar
    if run ≠ [] ∧ rest.head? = some '/' then
      let p := nsGroupF fuel rest.tail
      (run ++ '/' :: p.1, p.2)
    else ([], s)

/-- The namespace group of the regex on input `s`. -/
def nsGroup (s : List Char) : List Char × List Char := nsGroupF s.length s

/-- The id iteration `([a-zA-Z0-9\-_.!~*\x27]*:)*` of the regex:
repeatedly take a (possibly empty) maximal run of id characters
followed by `:`.  One unit of fuel per iteration; every iteration
consumes at least one character (the colon). -/
def idIterF : Nat → List Char → List Char × List Char
  | 0, s => ([], s)
  | fuel + 1, s =>
    let run := s.takeWhile isIdChar
    let rest := s.dropWhile isIdChar
    if rest.head? = some ':' then
      let p := idIterF fuel rest.tail
      (run ++ ':' :: p.1, p.2)
    else ([], s)

/-- The optional id clause `(:([a-zA-Z0-9\-_.!~*\x27]*:)*)?` of the
regex (group 5): a literal `:` followed by id iterations.  Returns the
matched text (empty when the group is absent) and the rest. -/
def idsGroup (s : List Char) : List Char × List Char :=
  match s with
  | ':' :: r =>
    let p := idIterF r.length r
    (':' :: p.1, p.2)
  | _ => ([], s)

/-- Literal match of the root path at the front of the input, the
`^(rootPath)` part of the regex. -/
def dropRoot : List Char → List Char → Option (List Char)
  | [], s => some s
  | _ :: _, [] => none
  | a :: p, b :: s => if a = b then dropRoot p s else none

/-- The capture groups of `uriRegex.FindStringSubmatch` that
`URI.Split` reads: `g2` the namespace text, `g4` the model, `g5` the
id clause text (with its colons), `g7` the action text (with its
parentheses).  Group 1 (the root path text) is omitted because the
root path is matched literally, so on success it always equals the
configured root path and the `groups[1] != u.rootPath` check in
`URI.Split` never fires. -/
structure RegexGroups where
  g2 : List Char
  g4 : List Char
  g5 : List Char
  g7 : List Char
  deriving Repr, DecidableEq

/-- The part of the anchored regex after the root path, applied to the
remaining input `r0`: `none` when it does not match to the end of the
input, otherwise the capture groups.  The optional action group
`(\([a-zA-Z0-9\-_.!~*]+\))?` is folded together with the final `$`:
after the id clause the rest must be empty, or be exactly a
parenthesised non-empty run of segment characters. -/
def matchGroups (r0 : List Char) : Option RegexGroups :=
  let p2 := nsGroup r0
  let g4 := p2.2.takeWhile isSegChar
  let r2 := p2.2.dropWhile isSegChar
  let p5 := idsGroup r2
  if p5.2 = [] then some ⟨p2.1, g4, p5.1, []⟩
  else if p5.2.head? = some '(' then
    let r4 := p5.2.tail
    if r4.takeWhile isSegChar ≠ [] ∧ r4.dropWhile isSegChar = [')'] then
      some ⟨p2.1, g4, p5.1, '(' :: (r4.takeWhile isSegChar ++ [')'])⟩
    else none
  else none

/-- `uriRegex.FindStringSubmatch`: the literal root path, then the
rest of the groups; `none` — the go nil, reported by `URI.Split` as a
malformed-address error — when the anchored regex does not match. -/
def matchURI (root s : List Char) : Option RegexGroups :=
  match dropRoot root s with
  | none => none
  | some r0 => matchGroups r0

/-- `strings.Trim(s, string(cut))`: remove every leading and trailing
occurrence of `cut`. -/
def goTrim (cut : Char) (s : List Char) : List Char :=
  ((s.dropWhile (· == cut)).reverse.dropWhile (· == cut)).reverse

/-- `strings.Split(s, string(sep))`: the (always non-empty) list of
chunks of `s` between occurrences of `sep`; the empty string yields
one empty chunk. -/
def goSplit (sep : Char) : List Char → List (List Char)
  | [] => [[]]
  | c :: r =>
    if c == sep then [] :: goSplit sep r
    else
      match goSplit sep r with
      | [] => [[c]]
      | g :: gs => (c :: g) :: gs

/-- `strings.Join(l, string(sep))`: the elements of `l` separated by
`sep`. -/
def goJoin (sep : Char) : List (List Char) → List Char
  | [] => []
  | [x] => x
  | x :: xs => x ++ sep :: goJoin sep xs

/-- The result record of `URI.Split`.  go slices distinguish nil from
non-nil, which `Option` mirrors: `none` is a nil `namespaceList` or
`ids`. -/
structure SplitOut where
  ns : Option (List String)
  model : String
  action : String
  ids : Option (List String)
  multi : Bool
  deriving Repr, DecidableEq

/-- `URI.Split`: run the regex, then post-process the groups exactly as
the go code does: the namespace text is trimmed of `/` and split on
`/` when non-empty (nil otherwise); the id clause is trimmed of `:`
and split on `:` when non-empty (nil otherwise, with `multi` derived
as `len(ids) > 1`); the action text loses its parentheses. -/
def URI.Split (root s : List Char) : Option SplitOut :=
  match matchURI root s with
  | none => none
  | some g =>
    let ns := if g.g2 = [] then none
      else some ((goSplit '/' (goTrim '/' g.g2)).map String.mk)
    let idsMulti : Option (List String) × Bool :=
      if g.g5 = [] then (none, false)
      else
        let l := (goSplit ':' (goTrim ':' g.g5)).map String.mk
        (some l, decide (1 < l.length))
    let act := if g.g7 = [] then "" else String.mk ((g.g7.drop 1).dropLast)
    some ⟨ns, String.mk g.g4, act, idsMulti.1, idsMulti.2⟩

/-- `URI.Build`: root path, then the joined namespace followed by `/`
when non-empty, and — only when the model is non-empty — the model,
the id clause `:id1:...:idn:` when ids are present, and the action in
parentheses when non-empty.  `ns`/`ids` are `Option` to mirror the go
nil slices; `Build` itself only looks at `len`, so `none` and
`some []` behave identically, as in go. -/
def URI.Build (root : List Char) (ns : Option (List String)) (model action : String)
    (ids : Option (List String)) : List Char :=
  let nsl := (ns.getD []).map String.toList
  let base := root ++ (if 0 < nsl.length then goJoin '/' nsl ++ ['/'] else [])
  if model = "" then base
  else
    let idl := (ids.getD []).map String.toList
    base ++ model.toList
      ++ (if 0 < idl.length then ':' :: (goJoin ':' idl ++ [':']) else [])
      ++ (if action = "" then [] else '(' :: (action.toList ++ [')']))

/-- The id contribution of a single path, as computed inside
`URI.ExtractIds`: the trimmed-and-split id clause when present, and
nothing when the clause is absent (or the path does not parse, in
which case `ExtractIds` errors out instead of using this value). -/
def pathIds (root : List Char) (v : String) : List String :=
  match matchURI root v.toList with
  | some g => if g.g5 = [] then [] else (goSplit ':' (goTrim ':' g.g5)).map String.mk
  | none => []

/-- `URI.ExtractIds`: parse each path with the regex, failing on the
first path that does not match (the error names that path; later paths
are not examined), and concatenate the id lists of all paths in
order. -/
def URI.ExtractIds (root : List Char) : List String → Except String (List String)
  | [] => .ok []
  | v :: rest =>
    match matchURI root v.toList with
    | none => .error ("unable to parse URI " ++ v)
    | some g =>
      match URI.ExtractIds root rest with
      | .error e => .error e
      | .ok tail =>
        .ok ((if g.g5 = [] then [] else (goSplit ':' (goTrim ':' g.g5)).map String.mk) ++ tail)

/-- The closed error taxonomy produced by the status classification in
`CInP.request`: the three body-free kinds, the two body-carrying kinds
(`InvalidRequest`, `ServerError`), the unhandled-status error and the
`unable to parse response` error of an undecodable 400/500 body. -/
inductive ReqError where
  | invalidSession
  | notAuthorized
  | notFound
  | invalidRequest (msg : String)
  | serverError (msg trace : String)
  | unhandledStatus (code : Nat)
  | parseFailure (code : Nat)
  deriving Repr, DecidableEq

/-- The outcome of `json.NewDecoder(bodyReader).Decode(&resultData)`
on a 400/500 response body: a decode error other than EOF
(`failure`), an empty body — decode returns EOF and `resultData`
stays the nil map (`empty`) — or a decoded map, abstracted to its
`message` entry (a string, as the code's type assertion requires), its
`trace` entry (already rendered with `%v`, as the code does) and the
`%v` rendering of the whole map used when `message` is absent. -/
inductive BodyDecode where
  | failure
  | empty
  | value (message : Option String) (trace : Option String) (rendered : String)
  deriving Repr, DecidableEq

/-- The `message` entry of the decoded body; the nil map of an empty
body has none. -/
def bodyMessage : BodyDecode → Option String
  | .value m _ _ => m
  | _ => none

/-- The `trace` entry of the decoded body. -/
def bodyTrace : BodyDecode → Option String
  | .value _ t _ => t
  | _ => none

/-- The `%v` rendering of the decoded body map; the nil map renders as
`map[]`. -/
def bodyRendered : BodyDecode → String
  | .value _ _ r => r
  | .empty => "map[]"
  | .failure => ""

/-- The status classification of `CInP.request` (the switch on
`res.StatusCode` and the 400/500 body handling): 401/403/404 return
their dedicated error before the body is ever read; 400/500 decode the
body and build `InvalidRequest` / `ServerError`; every other status
outside 200/201/202 is unhandled; 200/201/202 fall through to the
success path, which returns the status code.  (The later decode of the
body into `dataOut` on the success path can still fail; that is
outside this function, which models lines 181-222 of the source.) -/
def requestClassify (status : Nat) (body : BodyDecode) : Except ReqError Nat :=
  if status = 401 then .error .invalidSession
  else if status = 403 then .error .notAuthorized
  else if status = 404 then .error .notFound
  else if status = 200 ∨ status = 201 ∨ status = 202 ∨ status = 400 ∨ status = 500 then
    if status = 400 ∨ status = 500 then
      match body with
      | .failure => .error (.parseFailure status)
      | b =>
        if status = 400 then
          match bodyMessage b with
          | some m => .error (.invalidRequest m)
          | none => .error (.invalidRequest (bodyRendered b))
        else
          match bodyMessage b with
          | some m =>
            match bodyTrace b with
            | some tr => .error (.serverError m tr)
            | none => .error (.serverError m "")
          | none => .error (.serverError (bodyRendered b) "")
    else .ok status
  else .error (.unhandledStatus status)

/-- The token characters of an HTTP header field name
(`httpguts.IsTokenRune`), against which `CanonicalMIMEHeaderKey`
validates before canonicalising. -/
def isTokenChar (c : Char) : Bool :=
  ('a' ≤ c && c ≤ 'z') || ('A' ≤ c && c ≤ 'Z') || ('0' ≤ c && c ≤ '9') ||
  c == '!' || c == '#' || c == '$' || c == '%' || c == '&' || c == apos ||
  c == '*' || c == '+' || c == '-' || c == '.' || c == '^' || c == '_' ||
  c == Char.ofNat 96 || c == '|' || c == '~'

/-- The case-mapping pass of `textproto.CanonicalMIMEHeaderKey`:
uppercase the first letter and every letter after a `-`, lowercase the
rest. -/
def canonChars : Bool → List Char → List Char
  | _, [] => []
  | up, c :: r =>
    let c2 := if up then c.toUpper else c.toLower
    c2 :: canonChars (c2 == '-') r

/-- `textproto.CanonicalMIMEHeaderKey`: canonicalise the case of a
header name, or return it unchanged if it contains a non-token
character. -/
def canonicalKey (s : String) : String :=
  if s.toList.all isTokenChar then String.mk (canonChars true s.toList) else s

/-- `req.Header.Set(k, v)`: store `v` under the canonical form of `k`,
replacing any previous value.  The header map is modelled as an
association list with unique keys. -/
def headerSet (h : List (String × String)) (k v : String) : List (String × String) :=
  let ck := canonicalKey k
  h.filter (fun p => !(p.1 == ck)) ++ [(ck, v)]

/-- `Header.Get(k)`: the value stored under the canonical form of
`k`, if any. -/
def headerGet (h : List (String × String)) (k : String) : Option String :=
  (h.find? (fun p => p.1 == canonicalKey k)).map Prod.snd

/-- `Header.Get` as the go method behaves on a missing key: the empty
string. -/
def headerGetD (h : List (String × String)) (k : String) : String :=
  (headerGet h k).getD ""

/-- The header assembly of `CInP.request` (lines 159-169 of the
source): first the client default headers (`cinp.headers`), then the
per-call `headers` argument, then the five protocol-mandated `Set`
calls.  go map iteration order is unspecified, so the two maps are
taken as lists in an arbitrary order; the theorems quantify over all
orders. -/
def buildRequestHeaders (defaults extra : List (String × String)) : List (String × String) :=
  let h0 := defaults.foldl (fun h p => headerSet h p.1 p.2) []
  let h1 := extra.foldl (fun h p => headerSet h p.1 p.2) h0
  let h2 := headerSet h1 "User-Agent" "golang CInP client"
  let h3 := headerSet h2 "Accepts" "application/json"
  let h4 := headerSet h3 "Accept-Charset" "utf-8"
  let h5 := headerSet h4 "CInP-Version" "1.0"
  headerSet h5 "Content-Type" "application/json;charset=utf-8"

/-- Decimal digit characters, for `strconv.Atoi`. -/
def isDigitChar (c : Char) : Bool := '0' ≤ c && c ≤ '9'

/-- The value of a non-empty all-digit run; `none` otherwise. -/
def digitsVal? (l : List Char) : Option Nat :=
  if l.isEmpty then none
  else if l.all isDigitChar then some (l.foldl (fun a c => a * 10 + (c.toNat - 48)) 0)
  else none

/-- `strconv.Atoi`: an optional sign followed by a non-empty run of
digits; anything else (in particular the empty string) fails.  The
64-bit overflow failure of the go function is not modelled; no claim
depends on it. -/
def goAtoi (s : String) : Option Int :=
  match s.toList with
  | [] => none
  | '+' :: r => (digitsVal? r).map (fun n => (n : Int))
  | '-' :: r => (digitsVal? r).map (fun n => -(n : Int))
  | l => (digitsVal? l).map (fun n => (n : Int))

/-- The post-request processing of `CInP.List`: reject any status
other than 200, then parse the `Position`, `Count` and `Total`
response headers (extracted by `request` with `Header.Get`, so an
absent header is the empty string) with `strconv.Atoi`, failing on the
first one that does not parse; on success return the result list and
the three server-supplied numbers. -/
def listResult (code : Nat) (result : List String) (respHeaders : List (String × String)) :
    Option (List String × Int × Int × Int) :=
  if code ≠ 200 then none
  else
    match goAtoi (headerGetD respHeaders "Position") with
    | none => none
    | some p =>
      match goAtoi (headerGetD respHeaders "Count") with
      | none => none
      | some c =>
        match goAtoi (headerGetD respHeaders "Total") with
        | none => none
        | some t => some (result, p, c, t)

/-- The post-request processing of `CInP.Create`: reject any status
other than 201, split the `Object-Id` response header, reject it when
it carries a non-nil id list whose length is not 1 (`ids != nil &&
len(ids) != 1`), and otherwise attach the `Object-Id` value to the
object (`SetURI`); the attached URI is returned. -/
def createResult (root : List Char) (code : Nat) (objectId : String) : Option String :=
  if code ≠ 201 then none
  else
    match URI.Split root objectId.toList with
    | none => none
    | some out =>
      match out.ids with
      | some l => if l.length ≠ 1 then none else some objectId
      | none => some objectId

/-- The pagination loop of `CInP.ListIds` against a server holding the
fixed item list `xs`, served in chunks of `C`: a `List` call at
`position` returns the items `xs[position : position+C]`, echoes
`position`, reports `count` as the number of returned items (that is,
`min C (N - position)`) and `total = N`.  The loop publishes each page
and advances `position` by `count` until `position ≥ total`.  Returns
the number of `List` calls made and the published items in order.
Fuelled to be structural: every iteration either advances `position`
(by at least one when `C ≥ 1` and `position < N`) or is the last, so
`N + 1` units are always enough; `CInPGo.ListIds` instantiates the
fuel accordingly and the theorems prove the exact call count, which
shows the fuel is never exhausted. -/
def listLoopF (xs : List String) (C : Nat) : Nat → Nat → Nat → Nat × List String
  | 0, _, _ => (0, [])
  | fuel + 1, position, total =>
    if position < total then
      let items := (xs.drop position).take C
      let count := items.length
      let rest := listLoopF xs C fuel (position + count) xs.length
      (rest.1 + 1, items ++ rest.2)
    else (0, [])

/-- `CInP.ListIds` over the fixed server list `xs`: chunk sizes below
1 fall back to 50, the loop starts at `position = 0` with the sentinel
`total = 1`. -/
def ListIds (xs : List String) (chunkSize : Nat) : Nat × List String :=
  let C := if chunkSize < 1 then 50 else chunkSize
  listLoopF xs C (xs.length + 1) 0 1

/-- A namespace segment as the grammar requires it: non-empty, over
the segment character class. -/
def segOKb (s : String) : Bool := !s.toList.isEmpty && s.toList.all isSegChar

/-- An id as the grammar allows it: any (possibly empty) run over the
id character class. -/
def idOKb (s : String) : Bool := s.toList.all isIdChar

/-- Well-formed namespace component: a nil slice, or a non-empty list
of well-formed segments. -/
def nsOKb : Option (List String) → Bool
  | none => true
  | some l => !l.isEmpty && l.all segOKb

/-- Well-formed id component: a nil slice, or a non-empty list of ids
over the id character class that is either exactly the single empty id
or has non-empty first and last ids (interior ids may be empty; a
leading or trailing empty id is not reproduced by `URI.Split`, because
`strings.Trim` eats its colon). -/
def idsOKb : Option (List String) → Bool
  | none => true
  | some l =>
    l.all idOKb &&
      (l == [""] || (!l.isEmpty && !(l.head? == some "") && !(l.getLast? == some "")))

/-- Well-formed address components: well-formed namespace and ids,
model and action over the segment class, and ids/action only given
alongside a non-empty model. -/
def wellFormed (ns : Option (List String)) (model action : String)
    (ids : Option (List String)) : Bool :=
  nsOKb ns && model.toList.all isSegChar && (action == "" || action.toList.all isSegChar) &&
    idsOKb ids && (!(model == "") || (ids.isNone && action == ""))

/-- The set of characters that can appear anywhere after the root path
in a path accepted by the regex: the id character class (a superset of
the segment class) plus the four delimiters. -/
def addressChar (c : Char) : Bool :=
  isIdChar c || c == '/' || c == ':' || c == '(' || c == ')'

section SupportLemmas

/-- Proof helper: the concatenation of the elements of `l`, each
followed by `sep`; this is the exact text matched by a starred group
of `element sep` iterations. -/
def flatSep (sep : Char) : List (List Char) → List Char
  | [] => []
  | x :: xs => x ++ sep :: flatSep sep xs

lemma goJoin_flatSep (sep : Char) (l : List (List Char)) (h : l ≠ []) :
    goJoin sep l ++ [sep] = flatSep sep l := by
  induction l with
  | nil => exact absurd rfl h
  | cons x xs ih =>
    cases xs with
    | nil => simp [goJoin, flatSep]
    | cons y t =>
      calc goJoin sep (x :: y :: t) ++ [sep]
          = x ++ sep :: (goJoin sep (y :: t) ++ [sep]) := by simp [goJoin]
        _ = x ++ sep :: flatSep sep (y :: t) := by rw [ih (by simp)]
        _ = flatSep sep (x :: y :: t) := by simp [flatSep]

lemma flatSep_length (sep : Char) (l : List (List Char)) :
    l.length ≤ (flatSep sep l).length := by
  induction l with
  | nil => simp [flatSep]
  | cons x xs ih => simp only [flatSep, List.length_append, List.length_cons, List.length_map]; omega

lemma flatSep_ne_nil (sep : Char) (x : List Char) (xs : List (List Char)) :
    flatSep sep (x :: xs) ≠ [] := by
  simp [flatSep]

lemma takeWhile_app (p : Char → Bool) (l r : List Char) (hl : ∀ c ∈ l, p c = true)
    (hr : ∀ c, r.head? = some c → p c = false) : (l ++ r).takeWhile p = l := by
  induction l with
  | nil =>
    simp only [List.nil_append]
    cases r with
    | nil => rfl
    | cons c r' => simp [List.takeWhile_cons, hr c rfl]
  | cons c l' ih =>
    simp only [List.cons_append, List.takeWhile_cons, hl c (List.mem_cons_self c l'),
      if_true, List.cons.injEq, true_and]
    exact ih (fun d hd => hl d (List.mem_cons_of_mem _ hd))

lemma dropWhile_app (p : Char → Bool) (l r : List Char) (hl : ∀ c ∈ l, p c = true)
    (hr : ∀ c, r.head? = some c → p c = false) : (l ++ r).dropWhile p = r := by
  induction l with
  | nil =>
    simp only [List.nil_append]
    cases r with
    | nil => rfl
    | cons c r' => simp [List.dropWhile_cons, hr c rfl]
  | cons c l' ih =>
    simp only [List.cons_append, List.dropWhile_cons, hl c (List.mem_cons_self c l'), if_true]
    exact ih (fun d hd => hl d (List.mem_cons_of_mem _ hd))

lemma dropWhile_head_ne (p : Char → Bool) (s : List Char)
    (h : ∀ c, s.head? = some c → p c = false) : s.dropWhile p = s := by
  cases s with
  | nil => rfl
  | cons c r => simp [List.dropWhile_cons, h c rfl]

lemma mem_of_getLast?_eq {α : Type*} (l : List α) (c : α) (h : l.getLast? = some c) : c ∈ l := by
  rw [← List.head?_reverse] at h
  have : c ∈ l.reverse := by
    cases hr : l.reverse with
    | nil => rw [hr] at h; exact absurd h (by simp)
    | cons a t => rw [hr] at h; simp at h; simp [hr, h]
  simpa using this

lemma goTrim_cons_sep (sep : Char) (s : List Char) : goTrim sep (sep :: s) = goTrim sep s := by
  simp [goTrim, List.dropWhile_cons]

lemma goTrim_sandwich (sep : Char) (m : List Char)
    (hh : ∀ c, m.head? = some c → (c == sep) = false)
    (hl : ∀ c, m.getLast? = some c → (c == sep) = false) :
    goTrim sep (m ++ [sep]) = m := by
  cases m with
  | nil => simp [goTrim]
  | cons c0 m' =>
    have h1 : ((c0 :: m') ++ [sep]).dropWhile (· == sep) = (c0 :: m') ++ [sep] := by
      apply dropWhile_head_ne
      intro c hc
      simp only [List.cons_append, List.head?_cons, Option.some.injEq] at hc
      exact hc ▸ hh c0 rfl
    unfold goTrim
    rw [h1]
    have h2 : ((c0 :: m') ++ [sep]).reverse = sep :: (c0 :: m').reverse := by simp
    rw [h2, List.dropWhile_cons]
    simp only [beq_self_eq_true, if_true]
    rw [dropWhile_head_ne]
    · simp
    · intro c hc
      rw [List.head?_reverse] at hc
      exact hl c hc

lemma goSplit_no_sep (sep : Char) (x : List Char) (hx : ∀ c ∈ x, (c == sep) = false) :
    goSplit sep x = [x] := by
  induction x with
  | nil => rfl
  | cons c x' ih =>
    simp only [goSplit, hx c (List.mem_cons_self c x'), Bool.false_eq_true, if_false]
    rw [ih (fun d hd => hx d (List.mem_cons_of_mem _ hd))]

lemma goSplit_app_sep (sep : Char) (x r : List Char) (hx : ∀ c ∈ x, (c == sep) = false) :
    goSplit sep (x ++ sep :: r) = x :: goSplit sep r := by
  induction x with
  | nil => simp [goSplit]
  | cons c x' ih =>
    simp only [List.cons_append, goSplit, hx c (List.mem_cons_self c x'), Bool.false_eq_true,
      if_false, List.append_eq]
    rw [ih (fun d hd => hx d (List.mem_cons_of_mem _ hd))]

lemma goSplit_join (sep : Char) : ∀ (l : List (List Char)), l ≠ [] →
    (∀ x ∈ l, ∀ c ∈ x, (c == sep) = false) → goSplit sep (goJoin sep l) = l
  | [], h, _ => absurd rfl h
  | [x], _, hfree => by
    simpa [goJoin] using goSplit_no_sep sep x (hfree x (by simp))
  | x :: y :: t, _, hfree => by
    have ih := goSplit_join sep (y :: t) (by simp)
      (fun z hz c hc => hfree z (List.mem_cons_of_mem _ hz) c hc)
    rw [show goJoin sep (x :: y :: t) = x ++ sep :: goJoin sep (y :: t) from rfl,
      goSplit_app_sep sep x _ (fun c hc => hfree x (List.mem_cons_self x _) c hc), ih]

lemma goJoin_cons_append (sep : Char) (x : List Char) (xs : List (List Char)) :
    ∃ T, goJoin sep (x :: xs) = x ++ T := by
  cases xs with
  | nil => exact ⟨[], by simp [goJoin]⟩
  | cons y t => exact ⟨sep :: goJoin sep (y :: t), rfl⟩

lemma goJoin_ne_nil (sep : Char) : ∀ (l : List (List Char)), l ≠ [] →
    (∀ x, l.getLast? = some x → x ≠ []) → goJoin sep l ≠ []
  | [], h, _ => absurd rfl h
  | [x], _, hlast => by
    have : x ≠ [] := hlast x rfl
    simpa [goJoin] using this
  | x :: y :: t, _, _ => by
    rw [show goJoin sep (x :: y :: t) = x ++ sep :: goJoin sep (y :: t) from rfl]
    simp

lemma goJoin_getLast_mem (sep : Char) : ∀ (l : List (List Char)),
    (∀ x, l.getLast? = some x → x ≠ []) →
    ∀ c, (goJoin sep l).getLast? = some c → ∃ x ∈ l, c ∈ x
  | [], _, c, hc => by simp [goJoin] at hc
  | [x], _, c, hc => ⟨x, List.mem_cons_self x [], mem_of_getLast?_eq x c (by simpa [goJoin] using hc)⟩
  | x :: y :: t, hlast, c, hc => by
    have hlast' : ∀ z, (y :: t).getLast? = some z → z ≠ [] := by
      intro z hz
      exact hlast z (by rw [List.getLast?_cons_cons]; exact hz)
    have hJ : goJoin sep (y :: t) ≠ [] := goJoin_ne_nil sep (y :: t) (by simp) hlast'
    rw [show goJoin sep (x :: y :: t) = x ++ sep :: goJoin sep (y :: t) from rfl] at hc
    rw [List.getLast?_append_of_ne_nil x (by simp)] at hc
    obtain ⟨j, J', hJ'⟩ := List.exists_cons_of_ne_nil hJ
    rw [hJ', List.getLast?_cons_cons, ← hJ'] at hc
    obtain ⟨z, hz, hcz⟩ := goJoin_getLast_mem sep (y :: t) hlast' c hc
    exact ⟨z, List.mem_cons_of_mem _ hz, hcz⟩

lemma goJoin_head_notsep (sep : Char) (x : List Char) (xs : List (List Char)) (hx : x ≠ [])
    (hfree : ∀ c ∈ x, (c == sep) = false) :
    ∀ c, (goJoin sep (x :: xs)).head? = some c → (c == sep) = false := by
  intro c hc
  obtain ⟨T, hT⟩ := goJoin_cons_append sep x xs
  obtain ⟨a, t, rfl⟩ := List.exists_cons_of_ne_nil hx
  rw [hT] at hc
  simp only [List.cons_append, List.head?_cons, Option.some.injEq] at hc
  exact hc ▸ hfree a (List.mem_cons_self a t)

lemma strToList_ne_nil (s : String) (h : s ≠ "") : s.toList ≠ [] := by
  intro hn
  apply h
  cases s with
  | mk data =>
    simp only [String.toList] at hn
    simp [hn]

lemma map_mk_toList (l : List String) : (l.map String.toList).map String.mk = l := by
  induction l with
  | nil => rfl
  | cons s t ih => simp only [List.map_cons, ih, List.cons.injEq, and_true]; rfl

lemma seg_beq_slash_false {c : Char} (h : isSegChar c = true) : (c == '/') = false := by
  rw [beq_eq_false_iff_ne]
  rintro rfl
  exact absurd h (by decide)

lemma id_beq_colon_false {c : Char} (h : isIdChar c = true) : (c == ':') = false := by
  rw [beq_eq_false_iff_ne]
  rintro rfl
  exact absurd h (by decide)

lemma nsGroupF_stop (fuel : Nat) (s : List Char)
    (h : (s.dropWhile isSegChar).head? ≠ some '/') : nsGroupF fuel s = ([], s) := by
  cases fuel with
  | zero => rfl
  | succ f =>
    simp only [nsGroupF]
    rw [if_neg (fun hc => h hc.2)]

lemma idIterF_stop (fuel : Nat) (s : List Char)
    (h : (s.dropWhile isIdChar).head? ≠ some ':') : idIterF fuel s = ([], s) := by
  cases fuel with
  | zero => rfl
  | succ f =>
    simp only [idIterF]
    rw [if_neg h]

lemma nsGroupF_flat :
    ∀ (segs : List (List Char)) (rest : List Char),
      (∀ seg ∈ segs, seg ≠ [] ∧ ∀ c ∈ seg, isSegChar c = true) →
      (rest.dropWhile isSegChar).head? ≠ some '/' →
      ∀ fuel, segs.length ≤ fuel →
        nsGroupF fuel (flatSep '/' segs ++ rest) = (flatSep '/' segs, rest)
  | [], rest, _, hrest, fuel, _ => by
    simpa [flatSep] using nsGroupF_stop fuel rest hrest
  | a :: tl, rest, hsegs, hrest, fuel, hfuel => by
    obtain ⟨f, rfl⟩ : ∃ f, fuel = f + 1 := ⟨fuel - 1, by simp at hfuel; omega⟩
    obtain ⟨ha, hac⟩ := hsegs a (List.mem_cons_self a tl)
    have hshape : flatSep '/' (a :: tl) ++ rest = a ++ '/' :: (flatSep '/' tl ++ rest) := by
      simp [flatSep]
    have hslash : ∀ c : Char, ('/' :: (flatSep '/' tl ++ rest)).head? = some c →
        isSegChar c = false := by
      intro c hc
      simp only [List.head?_cons, Option.some.injEq] at hc
      subst hc
      decide
    have htake : (a ++ '/' :: (flatSep '/' tl ++ rest)).takeWhile isSegChar = a :=
      takeWhile_app _ _ _ hac hslash
    have hdrop : (a ++ '/' :: (flatSep '/' tl ++ rest)).dropWhile isSegChar
        = '/' :: (flatSep '/' tl ++ rest) :=
      dropWhile_app _ _ _ hac hslash
    have ih := nsGroupF_flat tl rest (fun seg hs => hsegs seg (List.mem_cons_of_mem _ hs)) hrest f
      (by simp at hfuel ⊢; omega)
    rw [hshape]
    simp only [nsGroupF]
    rw [htake, hdrop, if_pos ⟨ha, rfl⟩]
    simp only [List.tail_cons]
    rw [ih]
    simp [flatSep]

lemma idIterF_flat :
    ∀ (idsl : List (List Char)) (rest : List Char),
      (∀ x ∈ idsl, ∀ c ∈ x, isIdChar c = true) →
      (rest.dropWhile isIdChar).head? ≠ some ':' →
      ∀ fuel, idsl.length ≤ fuel →
        idIterF fuel (flatSep ':' idsl ++ rest) = (flatSep ':' idsl, rest)
  | [], rest, _, hrest, fuel, _ => by
    simpa [flatSep] using idIterF_stop fuel rest hrest
  | a :: tl, rest, hids, hrest, fuel, hfuel => by
    obtain ⟨f, rfl⟩ : ∃ f, fuel = f + 1 := ⟨fuel - 1, by simp at hfuel; omega⟩
    have hac := hids a (List.mem_cons_self a tl)
    have hshape : flatSep ':' (a :: tl) ++ rest = a ++ ':' :: (flatSep ':' tl ++ rest) := by
      simp [flatSep]
    have hcolon : ∀ c : Char, (':' :: (flatSep ':' tl ++ rest)).head? = some c →
        isIdChar c = false := by
      intro c hc
      simp only [List.head?_cons, Option.some.injEq] at hc
      subst hc
      decide
    have hdrop : (a ++ ':' :: (flatSep ':' tl ++ rest)).dropWhile isIdChar
        = ':' :: (flatSep ':' tl ++ rest) :=
      dropWhile_app _ _ _ hac hcolon
    have htake : (a ++ ':' :: (flatSep ':' tl ++ rest)).takeWhile isIdChar = a :=
      takeWhile_app _ _ _ hac hcolon
    have ih := idIterF_flat tl rest (fun x hx => hids x (List.mem_cons_of_mem _ hx)) hrest f
      (by simp at hfuel ⊢; omega)
    rw [hshape]
    simp only [idIterF]
    rw [hdrop, htake,
      if_pos (show (':' :: (flatSep ':' tl ++ rest)).head? = some ':' from rfl)]
    simp only [List.tail_cons]
    rw [ih]
    simp [flatSep]

lemma dropRoot_append (root t : List Char) : dropRoot root (root ++ t) = some t := by
  induction root with
  | nil => rfl
  | cons a r ih => simp [dropRoot, ih]

lemma dropRoot_eq_some (root : List Char) : ∀ s r, dropRoot root s = some r → s = root ++ r := by
  induction root with
  | nil =>
    intro s r h
    simp only [dropRoot, Option.some.injEq] at h
    simp [h]
  | cons a p ih =>
    intro s r h
    cases s with
    | nil => exact absurd h (by simp [dropRoot])
    | cons b s' =>
      simp only [dropRoot] at h
      split at h
      · next hab => rw [← hab, List.cons_append, ih s' r h]
      · exact absurd h (by simp)

lemma joinSepIf_eq (sep : Char) (l : List (List Char)) :
    (if 0 < l.length then goJoin sep l ++ [sep] else []) = flatSep sep l := by
  cases l with
  | nil => simp [flatSep]
  | cons x xs => simp [goJoin_flatSep sep (x :: xs) (by simp)]

lemma build_shape (root : List Char) (ns : Option (List String)) (model action : String)
    (ids : Option (List String))
    (h0 : model = "" → ((ids.getD []).map String.toList) = [] ∧ action = "") :
    URI.Build root ns model action ids =
      root ++ (flatSep '/' ((ns.getD []).map String.toList) ++ (model.toList ++
        ((if ((ids.getD []).map String.toList).isEmpty then []
          else ':' :: flatSep ':' ((ids.getD []).map String.toList)) ++
         (if action = "" then [] else '(' :: (action.toList ++ [')']))))) := by
  by_cases hm : model = ""
  · obtain ⟨hid, hact⟩ := h0 hm
    simp only [URI.Build]
    rw [if_pos hm, hm, hid, hact, joinSepIf_eq]
    have hemp : ("" : String).toList = [] := rfl
    simp [hemp]
  · simp only [URI.Build]
    rw [if_neg hm, joinSepIf_eq]
    have hidp : (if 0 < ((ids.getD []).map String.toList).length then
        ':' :: (goJoin ':' ((ids.getD []).map String.toList) ++ [':']) else []) =
        (if ((ids.getD []).map String.toList).isEmpty then []
          else ':' :: flatSep ':' ((ids.getD []).map String.toList)) := by
      cases hcase : (ids.getD []).map String.toList with
      | nil => simp
      | cons x xs => simp [goJoin_flatSep ':' (x :: xs) (by simp)]
    rw [hidp]
    simp [List.append_assoc]

lemma takeWhile_all (p : Char → Bool) (l : List Char) (h : ∀ c ∈ l, p c = true) :
    l.takeWhile p = l := by
  have := takeWhile_app p l [] h (by simp)
  simpa using this

lemma dropWhile_all (p : Char → Bool) (l : List Char) (h : ∀ c ∈ l, p c = true) :
    l.dropWhile p = [] := by
  have := dropWhile_app p l [] h (by simp)
  simpa using this

lemma idsGroup_stop (s : List Char) (h : s.head? ≠ some ':') : idsGroup s = ([], s) := by
  cases s with
  | nil => rfl
  | cons c r =>
    simp only [idsGroup]
    split
    · next heq =>
      exact absurd (by rw [List.cons.injEq] at heq; rw [heq.1]; rfl) h
    · rfl

lemma matchURI_append (root t : List Char) : matchURI root (root ++ t) = matchGroups t := by
  simp only [matchURI]
  rw [dropRoot_append]

lemma matchTail (A B g5 D act : List Char)
    (hactc : ∀ c ∈ act, isSegChar c = true)
    (hD : D = if act.isEmpty then [] else '(' :: (act ++ [')'])) :
    (if D = [] then some (⟨A, B, g5, []⟩ : RegexGroups)
     else if D.head? = some '(' then
       if D.tail.takeWhile isSegChar ≠ [] ∧ D.tail.dropWhile isSegChar = [')'] then
         some ⟨A, B, g5, '(' :: (D.tail.takeWhile isSegChar ++ [')'])⟩
       else none
     else none) =
      some ⟨A, B, g5, if act.isEmpty then [] else '(' :: (act ++ [')'])⟩ := by
  cases act with
  | nil =>
    simp only [List.isEmpty_nil, if_true] at hD ⊢
    rw [hD, if_pos rfl]
  | cons a t =>
    simp only [List.isEmpty_cons, Bool.false_eq_true, if_false] at hD ⊢
    subst hD
    rw [if_neg (by simp)]
    rw [if_pos (show ('(' :: (a :: t ++ [')'])).head? = some '(' from rfl)]
    have hparen : ∀ c : Char, ([')'] : List Char).head? = some c → isSegChar c = false := by
      intro c hc
      simp only [List.head?_cons, Option.some.injEq] at hc
      subst hc
      decide
    have htake : ((a :: t) ++ [')']).takeWhile isSegChar = a :: t :=
      takeWhile_app _ _ _ hactc hparen
    have hdrop : ((a :: t) ++ [')']).dropWhile isSegChar = [')'] :=
      dropWhile_app _ _ _ hactc hparen
    simp only [List.tail_cons]
    rw [htake, hdrop, if_pos ⟨by simp, rfl⟩]

lemma matchGroups_flat (nsl : List (List Char)) (B : List Char) (idl : List (List Char))
    (act : List Char)
    (hsegs : ∀ seg ∈ nsl, seg ≠ [] ∧ ∀ c ∈ seg, isSegChar c = true)
    (hB : ∀ c ∈ B, isSegChar c = true)
    (hidc : ∀ x ∈ idl, ∀ c ∈ x, isIdChar c = true)
    (hactc : ∀ c ∈ act, isSegChar c = true) :
    matchGroups (flatSep '/' nsl ++ (B ++
      ((if idl.isEmpty then [] else ':' :: flatSep ':' idl) ++
       (if act.isEmpty then [] else '(' :: (act ++ [')']))))) =
      some ⟨flatSep '/' nsl, B,
        (if idl.isEmpty then [] else ':' :: flatSep ':' idl),
        (if act.isEmpty then [] else '(' :: (act ++ [')']))⟩ := by
  set C := (if idl.isEmpty then [] else ':' :: flatSep ':' idl) with hC
  set D := (if act.isEmpty then [] else '(' :: (act ++ [')'])) with hD
  have hDhead : ∀ c, D.head? = some c → c = '(' := by
    intro c hc
    rw [hD] at hc
    cases act with
    | nil => simp at hc
    | cons a t =>
      simp only [List.isEmpty_cons, Bool.false_eq_true, if_false, List.head?_cons,
        Option.some.injEq] at hc
      exact hc.symm
  have hCDhead : ∀ c, (C ++ D).head? = some c → isSegChar c = false ∧ c ≠ '/' := by
    intro c hc
    rw [hC] at hc
    cases hidl : idl with
    | nil =>
      rw [hidl] at hc
      simp only [List.isEmpty_nil, if_true, List.nil_append] at hc
      obtain rfl := hDhead c hc
      exact ⟨by decide, by decide⟩
    | cons x xs =>
      rw [hidl] at hc
      simp only [List.isEmpty_cons, Bool.false_eq_true, if_false, List.cons_append,
        List.head?_cons, Option.some.injEq] at hc
      subst hc
      refine ⟨by decide, by decide⟩
  have hrest : (((B ++ (C ++ D))).dropWhile isSegChar).head? ≠ some '/' := by
    rw [dropWhile_app _ _ _ hB (fun c hc => (hCDhead c hc).1)]
    intro hcon
    exact absurd rfl ((hCDhead '/' hcon).2)
  have hfuel : nsl.length ≤ (flatSep '/' nsl ++ (B ++ (C ++ D))).length := by
    have h1 := flatSep_length '/' nsl
    simp only [List.length_append]
    omega
  have hp2 : nsGroup (flatSep '/' nsl ++ (B ++ (C ++ D))) = (flatSep '/' nsl, B ++ (C ++ D)) := by
    unfold nsGroup
    exact nsGroupF_flat nsl (B ++ (C ++ D)) hsegs hrest _ hfuel
  have htakeB : (B ++ (C ++ D)).takeWhile isSegChar = B :=
    takeWhile_app _ _ _ hB (fun c hc => (hCDhead c hc).1)
  have hdropB : (B ++ (C ++ D)).dropWhile isSegChar = C ++ D :=
    dropWhile_app _ _ _ hB (fun c hc => (hCDhead c hc).1)
  have hp5 : idsGroup (C ++ D) = (C, D) := by
    rw [hC]
    cases hidl : idl with
    | nil =>
      simp only [List.isEmpty_nil, if_true, List.nil_append]
      exact idsGroup_stop D (fun hcon => absurd (hDhead ':' hcon) (by decide))
    | cons x xs =>
      simp only [List.isEmpty_cons, Bool.false_eq_true, if_false, List.cons_append]
      have hidrest : (D.dropWhile isIdChar).head? ≠ some ':' := by
        rw [dropWhile_head_ne _ _ (fun c hc => by obtain rfl := hDhead c hc; decide)]
        intro hcon
        exact absurd (hDhead ':' hcon) (by decide)
      have hiter := idIterF_flat (x :: xs) D
        (fun z hz c hc => hidc z (hidl ▸ hz) c hc) hidrest
        (flatSep ':' (x :: xs) ++ D).length
        (by have := flatSep_length ':' (x :: xs); simp only [List.length_append]; omega)
      simp only [idsGroup]
      rw [hiter]
  have hfin := matchTail (flatSep '/' nsl) B C D act hactc hD
  simp only [matchGroups]
  rw [hp2]
  simp only
  rw [htakeB, hdropB, hp5]
  simp only
  exact hfin

lemma mem_of_head?_eq {α : Type*} (l : List α) (x : α) (h : l.head? = some x) : x ∈ l := by
  cases l with
  | nil => simp at h
  | cons a t =>
    simp only [List.head?_cons, Option.some.injEq] at h
    exact h ▸ List.mem_cons_self a t

lemma trim_split_clause (sep : Char) (l : List (List Char)) (hne : l ≠ [])
    (hfree : ∀ x ∈ l, ∀ c ∈ x, (c == sep) = false)
    (hh : ∀ x, l.head? = some x → x ≠ [])
    (hl : ∀ x, l.getLast? = some x → x ≠ []) :
    goSplit sep (goTrim sep (flatSep sep l)) = l := by
  obtain ⟨x, xs, rfl⟩ := List.exists_cons_of_ne_nil hne
  rw [← goJoin_flatSep sep (x :: xs) (by simp)]
  rw [goTrim_sandwich sep (goJoin sep (x :: xs))
    (goJoin_head_notsep sep x xs (hh x rfl) (hfree x (List.mem_cons_self x xs)))
    (fun c hc => by
      obtain ⟨z, hz, hcz⟩ := goJoin_getLast_mem sep (x :: xs) hl c hc
      exact hfree z hz c hcz)]
  exact goSplit_join sep (x :: xs) (by simp) hfree

lemma trim_split_strs (sep : Char) (l : List String) (hne : l ≠ [])
    (hfree : ∀ s ∈ l, ∀ c ∈ s.toList, (c == sep) = false)
    (hh : ∀ s, l.head? = some s → s ≠ "")
    (hl : ∀ s, l.getLast? = some s → s ≠ "") :
    (goSplit sep (goTrim sep (flatSep sep (l.map String.toList)))).map String.mk = l := by
  rw [trim_split_clause sep (l.map String.toList) (by simpa using hne)
    (by
      intro x hx c hc
      obtain ⟨s, hs, rfl⟩ := List.mem_map.mp hx
      exact hfree s hs c hc)
    (by
      intro x hx
      rw [List.head?_map] at hx
      cases hl0 : l.head? with
      | none => rw [hl0] at hx; simp at hx
      | some s =>
        rw [hl0] at hx
        simp only [Option.map_some', Option.some.injEq] at hx
        exact hx ▸ strToList_ne_nil s (hh s hl0))
    (by
      intro x hx
      rw [List.getLast?_map] at hx
      cases hl0 : l.getLast? with
      | none => rw [hl0] at hx; simp at hx
      | some s =>
        rw [hl0] at hx
        simp only [Option.map_some', Option.some.injEq] at hx
        exact hx ▸ strToList_ne_nil s (hl s hl0)),
    map_mk_toList]

lemma nsGroupF_decomp (fuel : Nat) : ∀ (s : List Char),
    (nsGroupF fuel s).1 ++ (nsGroupF fuel s).2 = s ∧
    ∀ c ∈ (nsGroupF fuel s).1, isSegChar c = true ∨ c = '/' := by
  induction fuel with
  | zero => intro s; exact ⟨rfl, by simp [nsGroupF]⟩
  | succ f ih =>
    intro s
    simp only [nsGroupF]
    split
    · next hcond =>
      obtain ⟨hrun, hhead⟩ := hcond
      obtain ⟨happ, hchars⟩ := ih ((s.dropWhile isSegChar).tail)
      have hdw : s.dropWhile isSegChar = '/' :: (s.dropWhile isSegChar).tail := by
        cases hd : s.dropWhile isSegChar with
        | nil => rw [hd] at hhead; simp at hhead
        | cons c t =>
          rw [hd] at hhead
          simp only [List.head?_cons, Option.some.injEq] at hhead
          rw [hhead]
          simp
      constructor
      · calc (s.takeWhile isSegChar ++
              '/' :: (nsGroupF f ((s.dropWhile isSegChar).tail)).1) ++
              (nsGroupF f ((s.dropWhile isSegChar).tail)).2
            = s.takeWhile isSegChar ++
              '/' :: ((nsGroupF f ((s.dropWhile isSegChar).tail)).1 ++
                (nsGroupF f ((s.dropWhile isSegChar).tail)).2) := by simp
          _ = s.takeWhile isSegChar ++ '/' :: (s.dropWhile isSegChar).tail := by rw [happ]
          _ = s.takeWhile isSegChar ++ s.dropWhile isSegChar := by rw [← hdw]
          _ = s := List.takeWhile_append_dropWhile _ _
      · intro c hc
        rcases List.mem_append.mp hc with hc1 | hc2
        · exact Or.inl (List.mem_takeWhile_imp hc1)
        · rcases List.mem_cons.mp hc2 with rfl | hc3
          · exact Or.inr rfl
          · exact hchars c hc3
    · exact ⟨rfl, by simp⟩

lemma idIterF_decomp (fuel : Nat) : ∀ (s : List Char),
    (idIterF fuel s).1 ++ (idIterF fuel s).2 = s ∧
    ∀ c ∈ (idIterF fuel s).1, isIdChar c = true ∨ c = ':' := by
  induction fuel with
  | zero => intro s; exact ⟨rfl, by simp [idIterF]⟩
  | succ f ih =>
    intro s
    simp only [idIterF]
    split
    · next hhead =>
      obtain ⟨happ, hchars⟩ := ih ((s.dropWhile isIdChar).tail)
      have hdw : s.dropWhile isIdChar = ':' :: (s.dropWhile isIdChar).tail := by
        cases hd : s.dropWhile isIdChar with
        | nil => rw [hd] at hhead; simp at hhead
        | cons c t =>
          rw [hd] at hhead
          simp only [List.head?_cons, Option.some.injEq] at hhead
          rw [hhead]
          simp
      constructor
      · calc (s.takeWhile isIdChar ++
              ':' :: (idIterF f ((s.dropWhile isIdChar).tail)).1) ++
              (idIterF f ((s.dropWhile isIdChar).tail)).2
            = s.takeWhile isIdChar ++
              ':' :: ((idIterF f ((s.dropWhile isIdChar).tail)).1 ++
                (idIterF f ((s.dropWhile isIdChar).tail)).2) := by simp
          _ = s.takeWhile isIdChar ++ ':' :: (s.dropWhile isIdChar).tail := by rw [happ]
          _ = s.takeWhile isIdChar ++ s.dropWhile isIdChar := by rw [← hdw]
          _ = s := List.takeWhile_append_dropWhile _ _
      · intro c hc
        rcases List.mem_append.mp hc with hc1 | hc2
        · exact Or.inl (List.mem_takeWhile_imp hc1)
        · rcases List.mem_cons.mp hc2 with rfl | hc3
          · exact Or.inr rfl
          · exact hchars c hc3
    · exact ⟨rfl, by simp⟩

lemma idsGroup_decomp (s : List Char) :
    (idsGroup s).1 ++ (idsGroup s).2 = s ∧
    ∀ c ∈ (idsGroup s).1, isIdChar c = true ∨ c = ':' := by
  cases s with
  | nil => exact ⟨rfl, by simp [idsGroup]⟩
  | cons c r =>
    by_cases hc : c = ':'
    · subst hc
      obtain ⟨happ, hchars⟩ := idIterF_decomp r.length r
      constructor
      · show (':' :: (idIterF r.length r).1) ++ (idIterF r.length r).2 = ':' :: r
        simp only [List.cons_append, happ]
      · intro d hd
        rcases List.mem_cons.mp hd with rfl | hd2
        · exact Or.inr rfl
        · exact hchars d hd2
    · rw [idsGroup_stop (c :: r) (by simp [hc])]
      exact ⟨rfl, by simp⟩

lemma matchGroups_chars (r0 : List Char) (g : RegexGroups) (h : matchGroups r0 = some g) :
    ∀ c ∈ r0, addressChar c = true := by
  obtain ⟨hns, hnsc⟩ := nsGroupF_decomp r0.length r0
  obtain ⟨hid, hidc⟩ := idsGroup_decomp ((nsGroup r0).2.dropWhile isSegChar)
  have hmid := List.takeWhile_append_dropWhile isSegChar (nsGroup r0).2
  have hsegAddr : ∀ c : Char, isSegChar c = true ∨ c = '/' → addressChar c = true := by
    intro c hc
    rcases hc with hc | rfl
    · simp [addressChar, isIdChar, hc]
    · decide
  have hidAddr : ∀ c : Char, isIdChar c = true ∨ c = ':' → addressChar c = true := by
    intro c hc
    rcases hc with hc | rfl
    · simp [addressChar, hc]
    · decide
  simp only [matchGroups] at h
  intro c hc
  rw [show r0 = (nsGroup r0).1 ++ ((nsGroup r0).2.takeWhile isSegChar ++
      ((idsGroup ((nsGroup r0).2.dropWhile isSegChar)).1 ++
       (idsGroup ((nsGroup r0).2.dropWhile isSegChar)).2)) from by
    rw [hid, hmid]
    exact hns.symm] at hc
  rcases List.mem_append.mp hc with hc1 | hc'
  · exact hsegAddr c (hnsc c hc1)
  rcases List.mem_append.mp hc' with hc2 | hc''
  · exact hsegAddr c (Or.inl (List.mem_takeWhile_imp hc2))
  rcases List.mem_append.mp hc'' with hc3 | hc4
  · exact hidAddr c (hidc c hc3)
  · -- characters of the leftover consumed by the action group
    split at h
    · next hemp =>
      rw [hemp] at hc4
      simp at hc4
    · split at h
      · next hpar =>
        split at h
        · next hcond =>
          obtain ⟨hrun, hdropP⟩ := hcond
          have hshape : (idsGroup ((nsGroup r0).2.dropWhile isSegChar)).2 =
              '(' :: ((idsGroup ((nsGroup r0).2.dropWhile isSegChar)).2.tail) := by
            cases hd : (idsGroup ((nsGroup r0).2.dropWhile isSegChar)).2 with
            | nil => rw [hd] at hpar; simp at hpar
            | cons d t =>
              rw [hd] at hpar
              simp only [List.head?_cons, Option.some.injEq] at hpar
              rw [hpar]
              simp
          rw [hshape] at hc4
          rcases List.mem_cons.mp hc4 with rfl | hc5
          · decide
          · have := List.takeWhile_append_dropWhile isSegChar
              ((idsGroup ((nsGroup r0).2.dropWhile isSegChar)).2.tail)
            rw [hdropP] at this
            rw [← this] at hc5
            rcases List.mem_append.mp hc5 with hc6 | hc7
            · exact hsegAddr c (Or.inl (List.mem_takeWhile_imp hc6))
            · rcases List.mem_singleton.mp hc7 with rfl
              decide
        · exact absurd h (by simp)
      · exact absurd h (by simp)

lemma split_some (root s : List Char) (g : RegexGroups) (h : matchURI root s = some g) :
    URI.Split root s = some ⟨(if g.g2 = [] then none
      else some ((goSplit '/' (goTrim '/' g.g2)).map String.mk)),
      String.mk g.g4,
      (if g.g7 = [] then "" else String.mk ((g.g7.drop 1).dropLast)),
      (if g.g5 = [] then none else some ((goSplit ':' (goTrim ':' g.g5)).map String.mk)),
      (if g.g5 = [] then false
       else decide (1 < ((goSplit ':' (goTrim ':' g.g5)).map String.mk).length))⟩ := by
  simp only [URI.Split]
  rw [h]
  by_cases hg : g.g5 = [] <;> simp [hg]

lemma matchURI_build (root : List Char) (ns : Option (List String)) (model action : String)
    (ids : Option (List String)) (h : wellFormed ns model action ids = true) :
    matchURI root (URI.Build root ns model action ids) =
      some ⟨flatSep '/' ((ns.getD []).map String.toList),
            model.toList,
            (if ((ids.getD []).map String.toList).isEmpty then []
             else ':' :: flatSep ':' ((ids.getD []).map String.toList)),
            (if action.toList.isEmpty then [] else '(' :: (action.toList ++ [')']))⟩ := by
  simp only [wellFormed, Bool.and_eq_true] at h
  obtain ⟨⟨⟨⟨hns, hmodel⟩, hact⟩, hids⟩, hmono⟩ := h
  have hmono' : model = "" → (ids.getD []).map String.toList = [] ∧ action = "" := by
    intro hm
    rw [hm] at hmono
    simp only [beq_self_eq_true, Bool.not_true, Bool.false_or, Bool.and_eq_true,
      Option.isNone_iff_eq_none, beq_iff_eq] at hmono
    exact ⟨by simp [hmono.1], hmono.2⟩
  have hsegs : ∀ seg ∈ (ns.getD []).map String.toList,
      seg ≠ [] ∧ ∀ c ∈ seg, isSegChar c = true := by
    intro seg hseg
    cases ns with
    | none => simp at hseg
    | some l =>
      simp only [Option.getD_some, List.mem_map] at hseg
      obtain ⟨s, hs, rfl⟩ := hseg
      simp only [nsOKb, Bool.and_eq_true, List.all_eq_true] at hns
      have hsOK := hns.2 s hs
      simp only [segOKb, Bool.and_eq_true, Bool.not_eq_true', List.all_eq_true] at hsOK
      exact ⟨by simpa [List.isEmpty_iff] using hsOK.1, hsOK.2⟩
  have hB : ∀ c ∈ model.toList, isSegChar c = true := List.all_eq_true.mp hmodel
  have hidc : ∀ x ∈ (ids.getD []).map String.toList, ∀ c ∈ x, isIdChar c = true := by
    intro x hx
    cases ids with
    | none => simp at hx
    | some l =>
      simp only [Option.getD_some, List.mem_map] at hx
      obtain ⟨s, hs, rfl⟩ := hx
      simp only [idsOKb, Bool.and_eq_true, List.all_eq_true] at hids
      have := hids.1 s hs
      simpa [idOKb, List.all_eq_true] using this
  have hactc : ∀ c ∈ action.toList, isSegChar c = true := by
    by_cases hm : action = ""
    · intro c hc
      rw [hm] at hc
      simp at hc
    · have hbe : (action == "") = false := by simp [hm]
      rw [hbe, Bool.false_or] at hact
      exact List.all_eq_true.mp hact
  rw [build_shape root ns model action ids hmono']
  rw [matchURI_append]
  have hDif : (if action = "" then ([] : List Char) else '(' :: (action.toList ++ [')'])) =
      (if action.toList.isEmpty then [] else '(' :: (action.toList ++ [')'])) := by
    by_cases hm : action = ""
    · rw [if_pos hm, hm]
      rfl
    · have hne : ¬ (action.toList.isEmpty = true) :=
        fun hemp => strToList_ne_nil action hm (List.isEmpty_iff.mp hemp)
      rw [if_neg hm, if_neg hne]
  rw [hDif]
  exact matchGroups_flat _ _ _ _ hsegs hB hidc hactc

lemma find?_filter_of_imp (p q : (String × String) → Bool) (l : List (String × String))
    (h : ∀ x, p x = true → q x = true) : (l.filter q).find? p = l.find? p := by
  induction l with
  | nil => rfl
  | cons a t ih =>
    by_cases hq : q a = true
    · rw [List.filter_cons_of_pos hq]
      by_cases hp : p a = true
      · rw [List.find?_cons_of_pos _ hp, List.find?_cons_of_pos _ hp]
      · rw [List.find?_cons_of_neg _ (by simp [hp]), List.find?_cons_of_neg _ (by simp [hp])]
        exact ih
    · have hp : p a ≠ true := fun hpa => hq (h a hpa)
      rw [List.filter_cons_of_neg (by simp [hq]), List.find?_cons_of_neg _ (by simp [hp])]
      exact ih

lemma headerGet_set_self (h : List (String × String)) (k v : String) :
    headerGet (headerSet h k v) k = some v := by
  unfold headerGet headerSet
  rw [List.find?_append]
  have h1 : (h.filter fun p => !(p.1 == canonicalKey k)).find?
      (fun p => p.1 == canonicalKey k) = none := by
    rw [List.find?_eq_none]
    intro x hx
    have hmem := (List.mem_filter.mp hx).2
    simp only [Bool.not_eq_true'] at hmem
    simp [hmem]
  rw [h1]
  simp [List.find?]

lemma headerGet_set_ne (h : List (String × String)) (k k2 v : String)
    (hne : canonicalKey k2 ≠ canonicalKey k) :
    headerGet (headerSet h k v) k2 = headerGet h k2 := by
  unfold headerGet headerSet
  rw [List.find?_append]
  rw [find?_filter_of_imp _ _ h (by
    intro x hx
    simp only [beq_iff_eq] at hx
    simp [hx, hne])]
  have h2 : List.find? (fun p => p.1 == canonicalKey k2) [(canonicalKey k, v)] = none := by
    simp only [List.find?]
    rw [show ((canonicalKey k, v).1 == canonicalKey k2) = false from
      beq_eq_false_iff_ne.mpr (fun hco => hne hco.symm)]
  rw [h2]
  cases hf : List.find? (fun p => p.1 == canonicalKey k2) h <;> simp

lemma matchURI_some_facts (root s : List Char) (g : RegexGroups)
    (h : matchURI root s = some g) :
    root <+: s ∧ ∀ c ∈ s.drop root.length, addressChar c = true := by
  unfold matchURI at h
  cases hdr : dropRoot root s with
  | none => rw [hdr] at h; exact absurd h (by simp)
  | some r0 =>
    rw [hdr] at h
    have hs : s = root ++ r0 := dropRoot_eq_some root s r0 hdr
    subst hs
    refine ⟨⟨r0, rfl⟩, ?_⟩
    rw [List.drop_left]
    exact matchGroups_chars r0 g h

lemma ceil_step (C m : Nat) (hC : 0 < C) (hm : 0 < m) :
    (m - min C m + C - 1) / C + 1 = (m + C - 1) / C := by
  by_cases hle : C ≤ m
  · rw [min_eq_left hle]
    have h1 : m - C + C - 1 = m - 1 := by omega
    have h2 : m + C - 1 = (m - 1) + C := by omega
    rw [h1, h2, Nat.add_div_right _ hC]
  · rw [min_eq_right (by omega)]
    have h0 : m - m + C - 1 = C - 1 := by omega
    rw [h0]
    have h1 : (C - 1) / C = 0 := Nat.div_eq_of_lt (by omega)
    have h2 : (m + C - 1) / C = 1 := Nat.div_eq_of_lt_le (by omega) (by omega)
    omega

lemma take_drop_cnt {α : Type*} (xs : List α) (C p : Nat) :
    (xs.drop p).take C ++ xs.drop (p + ((xs.drop p).take C).length) = xs.drop p := by
  have hlen : ((xs.drop p).take C).length = min C (xs.length - p) := by simp
  by_cases hle : C ≤ xs.length - p
  · rw [hlen, min_eq_left hle, ← List.drop_drop C p xs]
    exact List.take_append_drop C (xs.drop p)
  · rw [hlen, min_eq_right (by omega)]
    have h1 : (xs.drop p).take C = xs.drop p := List.take_of_length_le (by simp; omega)
    have h2 : xs.drop (p + (xs.length - p)) = [] := List.drop_eq_nil_of_le (by omega)
    rw [h1, h2, List.append_nil]

lemma listLoopF_steady (xs : List String) (C : Nat) (hC : 0 < C) :
    ∀ (fuel p : Nat), xs.length - p < fuel →
      listLoopF xs C fuel p xs.length =
        ((xs.length - p + C - 1) / C, xs.drop p) := by
  intro fuel
  induction fuel with
  | zero => intro p h; exact absurd h (Nat.not_lt_zero _)
  | succ f ih =>
    intro p hp
    simp only [listLoopF]
    by_cases hlt : p < xs.length
    · rw [if_pos hlt]
      have hcnt : ((xs.drop p).take C).length = min C (xs.length - p) := by simp
      rw [ih (p + ((xs.drop p).take C).length) (by rw [hcnt]; omega)]
      simp only [Prod.mk.injEq]
      constructor
      · rw [hcnt]
        have hsub : xs.length - (p + min C (xs.length - p)) =
            xs.length - p - min C (xs.length - p) := by omega
        rw [hsub]
        exact ceil_step C (xs.length - p) hC (by omega)
      · exact take_drop_cnt xs C p
    · rw [if_neg hlt]
      simp only [Prod.mk.injEq]
      constructor
      · have h0 : xs.length - p = 0 := by omega
        rw [h0]
        exact (Nat.div_eq_of_lt (by omega)).symm
      · exact (List.drop_eq_nil_of_le (by omega)).symm

end SupportLemmas

section Claims

/-- C1 (amended): for well-formed address components — namespace
segments, model and action over the segment character class (segments
and model non-empty, empty model only without ids and action), id
lists over the id character class that are either nil, exactly the
single empty id, or non-empty with non-empty first and last ids —
`URI.Split` applied to the path produced by `URI.Build` returns
exactly the same namespace list, model, action and id list together
with the derived multiplicity flag (true iff at least two ids); in
particular a nil id list and the present single-empty-string id list
are distinguished and each reproduced exactly.  The original claim,
which also admitted id lists with an empty first or last id, is
refuted by the accompanying counterexample. -/
theorem split_build_roundtrip (root : List Char) (ns : Option (List String))
    (model action : String) (ids : Option (List String))
    (h : wellFormed ns model action ids = true) :
    URI.Split root (URI.Build root ns model action ids) =
      some ⟨ns, model, action, ids, decide (1 < (ids.getD []).length)⟩ := by
  rw [split_some root (URI.Build root ns model action ids) _
    (matchURI_build root ns model action ids h)]
  simp only [wellFormed, Bool.and_eq_true] at h
  obtain ⟨⟨⟨⟨hns, hmodel⟩, hact⟩, hids⟩, hmono⟩ := h
  simp only [Option.some.injEq, SplitOut.mk.injEq]
  refine ⟨?_, rfl, ?_, ?_, ?_⟩
  · -- namespace component
    cases ns with
    | none => simp [flatSep]
    | some l =>
      simp only [Option.getD_some]
      simp only [nsOKb, Bool.and_eq_true, Bool.not_eq_true', List.all_eq_true] at hns
      have hlne : l ≠ [] := List.isEmpty_eq_false.mp hns.1
      have hsegOK : ∀ s ∈ l, s ≠ "" ∧ ∀ c ∈ s.toList, isSegChar c = true := by
        intro s hs
        have := hns.2 s hs
        simp only [segOKb, Bool.and_eq_true, Bool.not_eq_true', List.all_eq_true] at this
        refine ⟨?_, this.2⟩
        intro hse
        rw [hse] at this
        exact absurd this.1 (by decide)
      rw [if_neg (by
        obtain ⟨s₀, ltl, rfl⟩ := List.exists_cons_of_ne_nil hlne
        exact flatSep_ne_nil '/' _ _)]
      rw [trim_split_strs '/' l hlne
        (fun s hs c hc => seg_beq_slash_false ((hsegOK s hs).2 c hc))
        (fun s hs => (hsegOK s (mem_of_head?_eq l s hs)).1)
        (fun s hs => (hsegOK s (mem_of_getLast?_eq l s hs)).1)]
  · -- action component
    by_cases ha : action = ""
    · rw [ha]
      have hemp : ("" : String).toList = [] := rfl
      simp [hemp]
    · have hne : action.toList ≠ [] := strToList_ne_nil action ha
      rw [show (if action.toList.isEmpty = true then ([] : List Char)
          else '(' :: (action.toList ++ [')'])) = '(' :: (action.toList ++ [')']) from
        if_neg (by simp only [List.isEmpty_iff]; exact hne)]
      rw [if_neg (by simp)]
      simp only [List.drop_succ_cons, List.drop_zero, List.dropLast_concat]
      rfl
  · -- ids component
    cases ids with
    | none => simp
    | some l =>
      simp only [Option.getD_some]
      simp only [idsOKb, Bool.and_eq_true, List.all_eq_true] at hids
      rcases Or.symm (Bool.or_eq_true _ _ ▸ hids.2) with hgen | hsingle
      · simp only [Bool.and_eq_true, Bool.not_eq_true', beq_eq_false_iff_ne,
          List.isEmpty_eq_false] at hgen
        obtain ⟨⟨hlne, hhead⟩, hlast⟩ := hgen
        have hidOK : ∀ s ∈ l, ∀ c ∈ s.toList, isIdChar c = true := by
          intro s hs
          have := hids.1 s hs
          simpa [idOKb, List.all_eq_true] using this
        have hmapne : (l.map String.toList) ≠ [] := by simpa using hlne
        rw [if_neg (by
          obtain ⟨x, xs, hxx⟩ := List.exists_cons_of_ne_nil hmapne
          simp [hxx, List.isEmpty_cons])]
        rw [show (if (l.map String.toList).isEmpty = true then ([] : List Char)
            else ':' :: flatSep ':' (l.map String.toList)) =
            ':' :: flatSep ':' (l.map String.toList) from
          if_neg (by simpa [List.isEmpty_eq_false] using hmapne)]
        rw [goTrim_cons_sep]
        rw [trim_split_strs ':' l hlne
          (fun s hs c hc => id_beq_colon_false (hidOK s hs c hc))
          (fun s hs => fun hse => hhead (hse ▸ hs ▸ rfl))
          (fun s hs => fun hse => hlast (hse ▸ hs ▸ rfl))]
      · rw [beq_iff_eq.mp hsingle]
        decide
  · -- multiplicity component
    cases ids with
    | none => simp
    | some l =>
      simp only [Option.getD_some]
      simp only [idsOKb, Bool.and_eq_true, List.all_eq_true] at hids
      rcases Or.symm (Bool.or_eq_true _ _ ▸ hids.2) with hgen | hsingle
      · simp only [Bool.and_eq_true, Bool.not_eq_true', beq_eq_false_iff_ne,
          List.isEmpty_eq_false] at hgen
        obtain ⟨⟨hlne, hhead⟩, hlast⟩ := hgen
        have hidOK : ∀ s ∈ l, ∀ c ∈ s.toList, isIdChar c = true := by
          intro s hs
          have := hids.1 s hs
          simpa [idOKb, List.all_eq_true] using this
        have hmapne : (l.map String.toList) ≠ [] := by simpa using hlne
        rw [if_neg (by
          obtain ⟨x, xs, hxx⟩ := List.exists_cons_of_ne_nil hmapne
          simp [hxx, List.isEmpty_cons])]
        rw [show (if (l.map String.toList).isEmpty = true then ([] : List Char)
            else ':' :: flatSep ':' (l.map String.toList)) =
            ':' :: flatSep ':' (l.map String.toList) from
          if_neg (by simpa [List.isEmpty_eq_false] using hmapne)]
        rw [goTrim_cons_sep]
        rw [trim_split_strs ':' l hlne
          (fun s hs c hc => id_beq_colon_false (hidOK s hs c hc))
          (fun s hs => fun hse => hhead (hse ▸ hs ▸ rfl))
          (fun s hs => fun hse => hlast (hse ▸ hs ▸ rfl))]
      · rw [beq_iff_eq.mp hsingle]
        decide

/-- Witness for C1: the round trip at a concrete well-formed input,
with the well-formedness hypothesis discharged by evaluation. -/
theorem split_build_roundtrip_witness :
    wellFormed (some ["ns"]) "model" "act" (some ["a", "b"]) = true ∧
    URI.Split "/api/v1/".toList
      (URI.Build "/api/v1/".toList (some ["ns"]) "model" "act" (some ["a", "b"])) =
      some ⟨some ["ns"], "model", "act", some ["a", "b"], true⟩ :=
  ⟨by decide, (split_build_roundtrip "/api/v1/".toList (some ["ns"]) "model" "act"
    (some ["a", "b"]) (by decide)).trans (by decide)⟩

/-- Counterexample for C1 as stated: the id list `["", "x"]` is drawn
from the allowed character set and accompanies a non-empty model, yet
`URI.Split` of the built path returns `["x"]`, not `["", "x"]` — the
leading empty id is eaten by the `strings.Trim` of the id clause
(`"::x:"` trims to `"x"`).  The round trip therefore fails for id
lists with an empty first (or last) id. -/
theorem split_build_roundtrip_cex :
    URI.Build "/api/v1/".toList none "model" "" (some ["", "x"]) =
      "/api/v1/model::x:".toList ∧
    URI.Split "/api/v1/".toList "/api/v1/model::x:".toList =
      some ⟨none, "model", "", some ["x"], false⟩ :=
  ⟨by decide, by decide⟩

/-- C2: the status classification of `CInP.request`.  401, 403 and 404
map to their dedicated error kinds for every body — decoded, empty or
undecodable — so the body is never inspected; 400 with a decoded
`message` yields `InvalidRequest` carrying it; 500 with a decoded
`message` yields `ServerError` carrying it and the `trace` when
present; every status outside 200/201/202/400/401/403/404/500 yields
the unhandled-status error; and a success result forces the status to
be 200, 201 or 202, echoed back. -/
theorem requestClassify_table :
    (∀ b, requestClassify 401 b = .error .invalidSession) ∧
    (∀ b, requestClassify 403 b = .error .notAuthorized) ∧
    (∀ b, requestClassify 404 b = .error .notFound) ∧
    (∀ m t r, requestClassify 400 (.value (some m) t r) = .error (.invalidRequest m)) ∧
    (∀ m t r, requestClassify 500 (.value (some m) (some t) r) = .error (.serverError m t)) ∧
    (∀ m r, requestClassify 500 (.value (some m) none r) = .error (.serverError m "")) ∧
    (∀ s b, s ≠ 200 → s ≠ 201 → s ≠ 202 → s ≠ 400 → s ≠ 401 → s ≠ 403 → s ≠ 404 → s ≠ 500 →
      requestClassify s b = .error (.unhandledStatus s)) ∧
    (∀ s b n, requestClassify s b = .ok n → (s = 200 ∨ s = 201 ∨ s = 202) ∧ n = s) := by
  refine ⟨fun b => rfl, fun b => rfl, fun b => rfl, fun m t r => rfl, fun m t r => rfl,
    fun m r => rfl, ?_, ?_⟩
  · intro s b h200 h201 h202 h400 h401 h403 h404 h500
    simp only [requestClassify]
    rw [if_neg h401, if_neg h403, if_neg h404,
      if_neg (by rintro (h | h | h | h | h) <;> contradiction)]
  · intro s b n h
    simp only [requestClassify] at h
    by_cases h1 : s = 401
    · rw [if_pos h1] at h
      exact Except.noConfusion h
    rw [if_neg h1] at h
    by_cases h2 : s = 403
    · rw [if_pos h2] at h
      exact Except.noConfusion h
    rw [if_neg h2] at h
    by_cases h3 : s = 404
    · rw [if_pos h3] at h
      exact Except.noConfusion h
    rw [if_neg h3] at h
    by_cases h4 : s = 200 ∨ s = 201 ∨ s = 202 ∨ s = 400 ∨ s = 500
    · rw [if_pos h4] at h
      by_cases h5 : s = 400 ∨ s = 500
      · rw [if_pos h5] at h
        exfalso
        cases b with
        | failure => exact Except.noConfusion h
        | empty =>
          rcases h5 with rfl | rfl <;> simp [bodyMessage, bodyTrace, bodyRendered] at h
        | value m t r =>
          rcases h5 with rfl | rfl
          · rcases m with _ | m' <;> simp [bodyMessage, bodyTrace, bodyRendered] at h
          · rcases m with _ | m'
            · simp [bodyMessage, bodyTrace, bodyRendered] at h
            · rcases t with _ | t' <;> simp [bodyMessage, bodyTrace, bodyRendered] at h
      · rw [if_neg h5] at h
        simp only [Except.ok.injEq] at h
        refine ⟨?_, h.symm⟩
        rcases h4 with hx | hx | hx | hx | hx
        · exact Or.inl hx
        · exact Or.inr (Or.inl hx)
        · exact Or.inr (Or.inr hx)
        · exact absurd hx (fun hco => h5 (Or.inl hco))
        · exact absurd hx (fun hco => h5 (Or.inr hco))
    · rw [if_neg h4] at h
      exact Except.noConfusion h

/-- Witness for C2: the unhandled-status clause applied at status 418
with an undecodable body, and the success clause applied at status
200. -/
theorem requestClassify_table_witness :
    requestClassify 418 .failure = .error (.unhandledStatus 418) ∧
    ((200 = 200 ∨ 200 = 201 ∨ 200 = 202) ∧ 200 = 200) :=
  ⟨requestClassify_table.2.2.2.2.2.2.1 418 .failure (by decide) (by decide) (by decide)
      (by decide) (by decide) (by decide) (by decide) (by decide),
    requestClassify_table.2.2.2.2.2.2.2 200 .empty 200 rfl⟩

/-- C3: on every successful `URI.Split` the returned multiplicity flag
is true exactly when the returned id list is present with at least two
entries — an absent id list, a single id and the single empty id all
give false — together with the two concrete evaluations of the claim:
three ids give multiplicity true, the lone empty id gives
multiplicity false. -/
theorem split_multiplicity :
    (∀ (root s : List Char) (out : SplitOut), URI.Split root s = some out →
      (out.multi = true ↔ ∃ l, out.ids = some l ∧ 2 ≤ l.length)) ∧
    URI.Split "/api/v1/".toList "/api/v1/ns/model:ghj:dsf:sfe:".toList =
      some ⟨some ["ns"], "model", "", some ["ghj", "dsf", "sfe"], true⟩ ∧
    URI.Split "/api/v1/".toList "/api/v1/ns/model::".toList =
      some ⟨some ["ns"], "model", "", some [""], false⟩ := by
  refine ⟨?_, by decide, by decide⟩
  intro root s out h
  simp only [URI.Split] at h
  cases hm : matchURI root s with
  | none => rw [hm] at h; exact absurd h (by simp)
  | some g =>
    rw [hm] at h
    simp only [Option.some.injEq] at h
    subst h
    by_cases hg : g.g5 = []
    · simp [hg]
    · simp only [hg, if_neg, if_false]
      simp [hg]
      omega

/-- Witness for C3: the multiplicity characterisation applied to a
concrete successful parse with two ids. -/
theorem split_multiplicity_witness :
    URI.Split "/api/v1/".toList "/api/v1/ns/model:a:b:".toList =
      some ⟨some ["ns"], "model", "", some ["a", "b"], true⟩ ∧
    ((⟨some ["ns"], "model", "", some ["a", "b"], true⟩ : SplitOut).multi = true ↔
      ∃ l, (⟨some ["ns"], "model", "", some ["a", "b"], true⟩ : SplitOut).ids = some l ∧
        2 ≤ l.length) :=
  ⟨by decide, split_multiplicity.1 "/api/v1/".toList "/api/v1/ns/model:a:b:".toList
    ⟨some ["ns"], "model", "", some ["a", "b"], true⟩ (by decide)⟩

/-- C4: for every set of client default headers and every per-call
header list — including ones that define the protocol headers in any
letter case — the assembled request carries the five protocol-mandated
values, because the mandated `Set` calls run last; and a per-call
header whose canonical name is not one of the mandated five takes
effect over any default, because the per-call headers are applied
after the defaults. -/
theorem request_header_precedence :
    (∀ defaults extra,
      headerGet (buildRequestHeaders defaults extra) "Content-Type" =
        some "application/json;charset=utf-8" ∧
      headerGet (buildRequestHeaders defaults extra) "CInP-Version" = some "1.0" ∧
      headerGet (buildRequestHeaders defaults extra) "Accept-Charset" = some "utf-8" ∧
      headerGet (buildRequestHeaders defaults extra) "Accepts" = some "application/json" ∧
      headerGet (buildRequestHeaders defaults extra) "User-Agent" =
        some "golang CInP client") ∧
    (∀ defaults extra k v,
      canonicalKey k ∉ ["User-Agent", "Accepts", "Accept-Charset", "Cinp-Version",
        "Content-Type"] →
      headerGet (buildRequestHeaders defaults (extra ++ [(k, v)])) k = some v) := by
  constructor
  · intro defaults extra
    simp only [buildRequestHeaders]
    refine ⟨headerGet_set_self _ _ _, ?_, ?_, ?_, ?_⟩
    · rw [headerGet_set_ne _ _ _ _ (by decide)]
      exact headerGet_set_self _ _ _
    · rw [headerGet_set_ne _ _ _ _ (by decide), headerGet_set_ne _ _ _ _ (by decide)]
      exact headerGet_set_self _ _ _
    · rw [headerGet_set_ne _ _ _ _ (by decide), headerGet_set_ne _ _ _ _ (by decide),
        headerGet_set_ne _ _ _ _ (by decide)]
      exact headerGet_set_self _ _ _
    · rw [headerGet_set_ne _ _ _ _ (by decide), headerGet_set_ne _ _ _ _ (by decide),
        headerGet_set_ne _ _ _ _ (by decide), headerGet_set_ne _ _ _ _ (by decide)]
      exact headerGet_set_self _ _ _
  · intro defaults extra k v hk
    simp only [buildRequestHeaders, List.foldl_append, List.foldl_cons, List.foldl_nil]
    rw [headerGet_set_ne _ _ _ _ (fun hek => hk (by rw [hek]; decide)),
      headerGet_set_ne _ _ _ _ (fun hek => hk (by rw [hek]; decide)),
      headerGet_set_ne _ _ _ _ (fun hek => hk (by rw [hek]; decide)),
      headerGet_set_ne _ _ _ _ (fun hek => hk (by rw [hek]; decide)),
      headerGet_set_ne _ _ _ _ (fun hek => hk (by rw [hek]; decide))]
    exact headerGet_set_self _ _ _

/-- Witness for C4: a non-mandated per-call header survives over a
default, and a caller-supplied content type in any case is overridden
by the mandated value. -/
theorem request_header_precedence_witness :
    (canonicalKey "Auth-Id" ∉ ["User-Agent", "Accepts", "Accept-Charset", "Cinp-Version",
      "Content-Type"]) ∧
    headerGet (buildRequestHeaders [("Content-Type", "evil")] ([] ++ [("Auth-Id", "tok")]))
      "Auth-Id" = some "tok" ∧
    headerGet (buildRequestHeaders [("Content-Type", "evil")] [("content-type", "worse")])
      "Content-Type" = some "application/json;charset=utf-8" :=
  ⟨by decide,
    request_header_precedence.2 [("Content-Type", "evil")] [] "Auth-Id" "tok" (by decide),
    (request_header_precedence.1 [("Content-Type", "evil")] [("content-type", "worse")]).1⟩

/-- Counterexample for C5 as stated: `URI.Split` successfully parses
`/api/v1/:x:`, returning a present id list with an empty model — the
regex permits an id clause (and likewise an action) directly at
namespace scope, so a successful parse does not imply that ids or an
action come with a model. -/
theorem split_namespace_scope_cex :
    URI.Split "/api/v1/".toList "/api/v1/:x:".toList =
      some ⟨none, "", "", some ["x"], false⟩ := by decide

/-- C5 (amended): the invariant holds on the build side only:
`URI.Build` with an empty model ignores the ids and the action
entirely, so no path produced by `Build` carries ids or an action at
namespace scope; `URI.Split`, however, does accept such paths, as the
accompanying counterexample shows. -/
theorem build_ignores_ids_action_without_model (root : List Char) (ns : Option (List String))
    (action : String) (ids : Option (List String)) :
    URI.Build root ns "" action ids = URI.Build root ns "" "" none := by
  simp [URI.Build]

/-- Counterexample for C6 as stated: a 201 response whose `Object-Id`
header parses with a nil id list — zero ids, not exactly one — is
accepted by `CInP.Create`, which attaches the header value, because
the check `ids != nil && len(ids) != 1` skips the nil case. -/
theorem create_nil_ids_cex :
    createResult "/api/v1/".toList 201 "/api/v1/ns/model" = some "/api/v1/ns/model" ∧
    URI.Split "/api/v1/".toList "/api/v1/ns/model".toList =
      some ⟨some ["ns"], "model", "", none, false⟩ :=
  ⟨by decide, by decide⟩

/-- C6 (amended): on a parsed `Object-Id`, `CInP.Create` at status 201
succeeds — attaching exactly the `Object-Id` value — if and only if
the parsed id list is nil or has exactly one entry; a present id list
of any other length is rejected.  (The original claim that an address
not resolving to exactly one id is always rejected fails for the nil
id list, as the accompanying counterexample shows.) -/
theorem create_object_id_check (root : List Char) (code : Nat) (objectId : String)
    (out : SplitOut) (hsplit : URI.Split root objectId.toList = some out) :
    (createResult root code objectId = some objectId ↔
      (code = 201 ∧ (out.ids = none ∨ ∃ l, out.ids = some l ∧ l.length = 1))) ∧
    (∀ r, createResult root code objectId = some r → r = objectId) := by
  have hred : createResult root code objectId =
      (if code ≠ 201 then none
       else match out.ids with
         | some l => if l.length ≠ 1 then none else some objectId
         | none => some objectId) := by
    unfold createResult
    rw [hsplit]
  constructor
  · rw [hred]
    by_cases hc : code = 201
    · rw [if_neg (by simp [hc])]
      cases hids : out.ids with
      | none => simp [hc]
      | some l =>
        by_cases hl : l.length = 1
        · simp [hc, hl]
        · simp [hc, hl]
    · rw [if_pos hc]
      simp [hc]
  · intro r hr
    rw [hred] at hr
    by_cases hc : code = 201
    · rw [if_neg (by simp [hc])] at hr
      cases hids : out.ids with
      | none =>
        rw [hids] at hr
        simp only [Option.some.injEq] at hr
        exact hr.symm
      | some l =>
        rw [hids] at hr
        by_cases hl : l.length = 1
        · simp only [hl] at hr
          simp at hr
          exact hr.symm
        · simp [hl] at hr
    · rw [if_pos hc] at hr
      exact Option.noConfusion hr

/-- Witness for C6: the characterisation applied at a 201 response
whose `Object-Id` carries exactly one id. -/
theorem create_object_id_check_witness :
    URI.Split "/api/v1/".toList "/api/v1/ns/model:abc:".toList =
      some ⟨some ["ns"], "model", "", some ["abc"], false⟩ ∧
    createResult "/api/v1/".toList 201 "/api/v1/ns/model:abc:" =
      some "/api/v1/ns/model:abc:" :=
  ⟨by decide,
    (create_object_id_check "/api/v1/".toList 201 "/api/v1/ns/model:abc:"
      ⟨some ["ns"], "model", "", some ["abc"], false⟩ (by decide)).1.mpr
      ⟨rfl, Or.inr ⟨["abc"], rfl, rfl⟩⟩⟩

/-- Counterexample for C7 as stated: for zero items the loop still
performs one `List` call — the sentinel `total = 1` forces a first
page fetch — while `ceil(0 / C) = 0`. -/
theorem listIds_zero_total_cex :
    ListIds [] 50 = (1, []) ∧ (List.length ([] : List String) + 50 - 1) / 50 = 0 :=
  ⟨by decide, by decide⟩

/-- C7 (amended): over a server with N items and chunk size C ≥ 1 the
`ListIds` loop terminates after exactly `max 1 (ceil(N / C))` calls to
`List` — `ceil(N / C)` calls when N ≥ 1, and a single call when N = 0
— publishing all N items in server order.  (The claim's exact
`ceil(N / C)` count fails at N = 0, as the accompanying counterexample
shows.) -/
theorem listIds_page_count (xs : List String) (C : Nat) (hC : 0 < C) :
    ListIds xs C = (max 1 ((xs.length + C - 1) / C), xs) := by
  simp only [ListIds]
  rw [if_neg (by omega)]
  by_cases hN : xs.length = 0
  · have hxs : xs = [] := List.length_eq_zero.mp hN
    subst hxs
    have h01 : (C - 1) / C = 0 := Nat.div_eq_of_lt (by omega)
    simp [listLoopF, h01]
  · have hlen : 0 < xs.length := by omega
    simp only [listLoopF]
    rw [if_pos (show (0 : Nat) < 1 by omega)]
    have hcnt : ((xs.drop 0).take C).length = min C (xs.length - 0) := by simp
    rw [listLoopF_steady xs C hC xs.length (0 + ((xs.drop 0).take C).length)
      (by rw [hcnt]; omega)]
    simp only [Prod.mk.injEq]
    constructor
    · rw [hcnt]
      have hsub : xs.length - (0 + min C (xs.length - 0)) =
          xs.length - 0 - min C (xs.length - 0) := by omega
      rw [hsub, ceil_step C (xs.length - 0) hC (by omega)]
      have hge : 1 ≤ (xs.length + C - 1) / C := (Nat.one_le_div_iff hC).mpr (by omega)
      have h0 : xs.length - 0 = xs.length := by omega
      rw [h0]
      omega
    · have := take_drop_cnt xs C 0
      simpa using this

/-- Witness for C7: the call-count formula at three items with chunk
size two: two calls, all items in order. -/
theorem listIds_page_count_witness :
    (0 : Nat) < 2 ∧ ListIds ["a", "b", "c"] 2 = (2, ["a", "b", "c"]) :=
  ⟨by decide, (listIds_page_count ["a", "b", "c"] 2 (by decide)).trans (by decide)⟩

/-- C8: `URI.Split` returns the malformed-address error — and never
success — on every string that does not begin with the configured root
path, and on every string containing, after the root path, a character
outside the allowed segment/id/action character set and the four
delimiters of the grammar: a successful match consumes only such
characters. -/
theorem split_malformed (root s : List Char)
    (h : ¬ (root <+: s) ∨ ∃ c ∈ s.drop root.length, addressChar c = false) :
    URI.Split root s = none := by
  cases hm : matchURI root s with
  | none => simp only [URI.Split]; rw [hm]
  | some g =>
    exfalso
    obtain ⟨hpre, hchars⟩ := matchURI_some_facts root s g hm
    rcases h with h1 | ⟨c, hc, hcf⟩
    · exact h1 hpre
    · rw [hchars c hc] at hcf
      exact absurd hcf (by simp)

/-- Witness for C8: a path that does not begin with the root path is
rejected. -/
theorem split_malformed_witness :
    ¬ ("/api/v1/".toList <+: "/apdsf".toList) ∧
    URI.Split "/api/v1/".toList "/apdsf".toList = none :=
  ⟨by decide, split_malformed "/api/v1/".toList "/apdsf".toList (Or.inl (by decide))⟩

/-- C9: `URI.ExtractIds` parses each path independently; when all
paths parse it returns the concatenation of every path's id list in
path order with per-path id order preserved, paths with an absent id
clause contributing nothing; when a path fails it returns the error
naming that first failing path, whatever comes after it; and the
claim's concrete example evaluates to `["d", "efef"]`. -/
theorem extractIds_concat :
    (∀ (root : List Char) (l : List String),
      (∀ x ∈ l, (matchURI root x.toList).isSome = true) →
      URI.ExtractIds root l = .ok (l.flatMap (pathIds root))) ∧
    (∀ (root : List Char) (pre : List String) (y : String) (post : List String),
      (∀ x ∈ pre, (matchURI root x.toList).isSome = true) →
      matchURI root y.toList = none →
      URI.ExtractIds root (pre ++ y :: post) = .error ("unable to parse URI " ++ y)) ∧
    URI.ExtractIds "/api/v1/".toList
      ["/api/v1/nbs/model:d:", "/api/v1/nbs/model:efef:"] = .ok ["d", "efef"] := by
  refine ⟨?_, ?_, rfl⟩
  · intro root l
    induction l with
    | nil => intro _; rfl
    | cons v rest ih =>
      intro hall
      obtain ⟨g, hg⟩ := Option.isSome_iff_exists.mp (hall v (List.mem_cons_self v rest))
      have hrest := ih (fun x hx => hall x (List.mem_cons_of_mem _ hx))
      have hgd : matchURI root v.data = some g := hg
      simp only [URI.ExtractIds, List.flatMap_cons]
      rw [hg, hrest]
      simp [pathIds, hg, hgd]
  · intro root pre y post
    induction pre with
    | nil =>
      intro _ hy
      simp only [List.nil_append, URI.ExtractIds]
      rw [hy]
    | cons v pre' ih =>
      intro hall hy
      obtain ⟨g, hg⟩ := Option.isSome_iff_exists.mp (hall v (List.mem_cons_self v pre'))
      have htail := ih (fun x hx => hall x (List.mem_cons_of_mem _ hx)) hy
      simp only [List.cons_append, URI.ExtractIds, List.append_eq]
      rw [hg, htail]

/-- Witness for C9: the first-failure clause applied with a parseable
path before and a path after the failing one. -/
theorem extractIds_concat_witness :
    matchURI "/api/v1/".toList "bad".toList = none ∧
    URI.ExtractIds "/api/v1/".toList (["/api/v1/x"] ++ "bad" :: ["/api/v1/y"]) =
      .error ("unable to parse URI " ++ "bad") :=
  ⟨by decide, extractIds_concat.2.1 "/api/v1/".toList ["/api/v1/x"] "bad" ["/api/v1/y"]
    (by decide) (by decide)⟩

/-- C10: `CInP.List` succeeds only when the status is 200 and all
three of the `Position`, `Count` and `Total` response headers parse as
decimal integers, in which case it returns the server-supplied values
verbatim; if any of the three fails `strconv.Atoi` the call errors,
and an absent header — extracted as the empty string by `Header.Get` —
always fails `Atoi`. -/
theorem listResult_headers :
    (∀ (code : Nat) (result : List String) (hdrs : List (String × String))
      (out : List String × Int × Int × Int),
      listResult code result hdrs = some out →
      code = 200 ∧ out.1 = result ∧
      goAtoi (headerGetD hdrs "Position") = some out.2.1 ∧
      goAtoi (headerGetD hdrs "Count") = some out.2.2.1 ∧
      goAtoi (headerGetD hdrs "Total") = some out.2.2.2) ∧
    (∀ (code : Nat) (result : List String) (hdrs : List (String × String)),
      (goAtoi (headerGetD hdrs "Position") = none ∨ goAtoi (headerGetD hdrs "Count") = none ∨
        goAtoi (headerGetD hdrs "Total") = none) →
      listResult code result hdrs = none) ∧
    (∀ (hdrs : List (String × String)) (k : String),
      headerGet hdrs k = none → headerGetD hdrs k = "") ∧
    goAtoi "" = none := by
  refine ⟨?_, ?_, ?_, rfl⟩
  · intro code result hdrs out h
    unfold listResult at h
    by_cases hc : code ≠ 200
    · rw [if_pos hc] at h
      exact Option.noConfusion h
    · rw [if_neg hc] at h
      have hcode : code = 200 := by omega
      cases hp : goAtoi (headerGetD hdrs "Position") with
      | none => rw [hp] at h; exact Option.noConfusion h
      | some p =>
        rw [hp] at h
        cases hq : goAtoi (headerGetD hdrs "Count") with
        | none => rw [hq] at h; exact Option.noConfusion h
        | some q =>
          rw [hq] at h
          cases ht : goAtoi (headerGetD hdrs "Total") with
          | none => rw [ht] at h; exact Option.noConfusion h
          | some t =>
            rw [ht] at h
            simp only [Option.some.injEq] at h
            subst h
            refine ⟨hcode, rfl, ?_, ?_, ?_⟩
            · rfl
            · rfl
            · rfl
  · intro code result hdrs hbad
    unfold listResult
    by_cases hc : code ≠ 200
    · rw [if_pos hc]
    · rw [if_neg hc]
      rcases hbad with hb | hb | hb
      · rw [hb]
      · cases hp : goAtoi (headerGetD hdrs "Position") with
        | none => rfl
        | some p => rw [hb]
      · cases hp : goAtoi (headerGetD hdrs "Position") with
        | none => rfl
        | some p =>
          cases hq : goAtoi (headerGetD hdrs "Count") with
          | none => rfl
          | some q => rw [hb]
  · intro hdrs k h
    simp [headerGetD, h]

/-- Witness for C10: the failure clause applied to a response with no
headers at all — the absent `Position` header reads as the empty
string and fails integer parsing. -/
theorem listResult_headers_witness :
    goAtoi (headerGetD ([] : List (String × String)) "Position") = none ∧
    listResult 200 [] [] = none :=
  ⟨by decide, listResult_headers.2.1 200 [] [] (Or.inl (by decide))⟩

end Claims

section Scratch

example : URI.Split "/api/v1/".toList "/apdsf".toList = none := by decide
example : URI.Split "/api/v1/".toList "/api/v1/".toList =
    some ⟨none, "", "", none, false⟩ := by decide
example : URI.Split "/api/v1/".toList "/api/v1/ns/".toList =
    some ⟨some ["ns"], "", "", none, false⟩ := by decide
example : URI.Split "/api/v1/".toList "/api/v1/ns/model".toList =
    some ⟨some ["ns"], "model", "", none, false⟩ := by decide
example : URI.Split "/api/v1/".toList "/api/v1/ns/ns2/model".toList =
    some ⟨some ["ns", "ns2"], "model", "", none, false⟩ := by decide
example : URI.Split "/api/v1/".toList "/api/v1/ns/model::".toList =
    some ⟨some ["ns"], "model", "", some [""], false⟩ := by decide
example : URI.Split "/api/v1/".toList "/api/v1/ns/model:ghj:".toList =
    some ⟨some ["ns"], "model", "", some ["ghj"], false⟩ := by decide
example : URI.Split "/api/v1/".toList "/api/v1/ns/model:ghj:dsf:sfe:".toList =
    some ⟨some ["ns"], "model", "", some ["ghj", "dsf", "sfe"], true⟩ := by decide
example : URI.Split "/api/v1/".toList "/api/v1/ns/model(action)".toList =
    some ⟨some ["ns"], "model", "action", none, false⟩ := by decide
example : URI.Split "/api/v1/".toList "/api/v1/ns/model:sdf:(action)".toList =
    some ⟨some ["ns"], "model", "action", some ["sdf"], false⟩ := by decide
example : URI.Split "/api/v1/".toList "/api/v1/ns/model:sdf:eed:(action)".toList =
    some ⟨some ["ns"], "model", "action", some ["sdf", "eed"], true⟩ := by decide
example : URI.Split "/api/v1/".toList "/api/v1/:x:".toList =
    some ⟨none, "", "", some ["x"], false⟩ := by decide
example : URI.Split "/api/v1/".toList "/api/v1/(act)".toList =
    some ⟨none, "", "act", none, false⟩ := by decide
example : URI.Build "/api/v1/".toList (some ["ns"]) "model" "" (some ["", "x"]) =
    "/api/v1/ns/model::x:".toList := by decide
example : URI.Split "/api/v1/".toList "/api/v1/ns/model::x:".toList =
    some ⟨some ["ns"], "model", "", some ["x"], false⟩ := by decide
example : URI.ExtractIds "/api/v1/".toList ["/api/v1/nbs/model:d:", "/api/v1/nbs/model:efef:"] =
    .ok ["d", "efef"] := rfl
example : URI.ExtractIds "/api/v1/".toList ["/api/v1/nbs/model:d:efef:123:"] =
    .ok ["d", "efef", "123"] := rfl
example : URI.ExtractIds "/api/v1/".toList ["api/v1", "/api/v1/sd/sdf:d:"] =
    .error "unable to parse URI api/v1" := rfl

example : requestClassify 401 .failure = .error .invalidSession := rfl
example : requestClassify 404 .empty = .error .notFound := rfl
example : requestClassify 400 (.value (some "bad") none "r") = .error (.invalidRequest "bad") := rfl
example : requestClassify 500 (.value (some "boom") (some "tr") "r") =
    .error (.serverError "boom" "tr") := rfl
example : requestClassify 500 .empty = .error (.serverError "map[]" "") := rfl
example : requestClassify 418 .empty = .error (.unhandledStatus 418) := rfl
example : requestClassify 202 .empty = .ok 202 := rfl

example : canonicalKey "CInP-Version" = "Cinp-Version" := by decide
example : canonicalKey "content-TYPE" = "Content-Type" := by decide
example : headerGet (buildRequestHeaders [("Content-Type", "evil")] [("content-type", "worse")])
    "Content-Type" = some "application/json;charset=utf-8" := by decide

example : goAtoi "" = none := by decide
example : goAtoi "123" = some 123 := by decide
example : goAtoi "-42" = some (-42) := by decide
example : goAtoi "1a" = none := by decide
example : listResult 200 ["a"] [("Position", "0"), ("Count", "1"), ("Total", "5")] =
    some (["a"], 0, 1, 5) := by decide
example : listResult 200 ["a"] [("Count", "1"), ("Total", "5")] = none := by decide

example : createResult "/api/v1/".toList 201 "/api/v1/ns/model:abc:" =
    some "/api/v1/ns/model:abc:" := by decide
example : createResult "/api/v1/".toList 201 "/api/v1/ns/model" =
    some "/api/v1/ns/model" := by decide
example : createResult "/api/v1/".toList 201 "/api/v1/ns/model:a:b:" = none := by decide

example : ListIds ["a", "b", "c", "d", "e"] 2 = (3, ["a", "b", "c", "d", "e"]) := by decide
example : ListIds [] 50 = (1, []) := by decide
example : ListIds ["a", "b"] 0 = (1, ["a", "b"]) := by decide

end Scratch

end CInPGo
